import Mathlib

/-!
# ZzzFS dataset engine: verification of spec claims

A shallow embedding of the ZzzFS dataset hierarchy and lifecycle engine
(`libzzzfs/dataset.py`, `libzzzfs/zfs.py`, `libzzzfs/util.py`) together with
proofs and refutations of the specification claims.

Conventions:
* Python dictionaries are modelled as association lists with `List.lookup`
  semantics (first binding wins; file-backed property directories have unique
  keys since keys are file names).
* Python `None`-valued dictionary entries are modelled with an inner `Option`:
  a lookup returns `Option (Option String)` where the outer layer is key
  presence and the inner layer is the Python value (`None` or a string).
* Filesystem errors (`OSError`, `ZzzFSException`) are modelled with `Except`
  or explicit result constructors.
-/

namespace Zzzfs

/-! ## String utilities (`libzzzfs/util.py`) -/

/-- `util.validate_component_name`: component must be nonempty, start with an
alphanumeric character, and contain only alphanumerics or `_ - : .`
(plus `/` when `allow_slashes` is set). -/
def validate_component_name (componentName : String) (allowSlashes : Bool := false) : Bool :=
  let allowed : List Char := if allowSlashes then ['_', '-', ':', '.', '/'] else ['_', '-', ':', '.']
  match componentName.data with
  | [] => false
  | c0 :: _ =>
    c0.isAlphanum && componentName.data.all (fun c => allowed.contains c || c.isAlphanum)

/-- `Filesystem.__init__`: `self.safe_name = self.name.replace('/', '%')` —
the on-disk safe-name encoding of a filesystem name. -/
def escapeName (name : String) : String :=
  String.mk (name.data.map (fun c => if c = '/' then '%' else c))

/-- `Pool.get_filesystems`: `Filesystem(x.replace('%', '/'))` — the inverse
decoding applied to on-disk directory names. -/
def unescapeName (name : String) : String :=
  String.mk (name.data.map (fun c => if c = '%' then '/' else c))

theorem unescape_escape_char (c : Char) (h : c ≠ '%') :
    (if (if c = '/' then '%' else c) = '%' then '/' else if c = '/' then '%' else c) = c := by
  by_cases hc : c = '/'
  · simp [hc]
  · simp [hc, h]

theorem valid_char_ne_percent (c : Char) (allowSlashes : Bool)
    (h : (if allowSlashes then ['_', '-', ':', '.', '/'] else ['_', '-', ':', '.']).contains c
          || c.isAlphanum) : c ≠ '%' := by
  rintro rfl
  cases allowSlashes <;> simp_all

theorem map_unescape_escape (l : List Char) (h : ∀ c ∈ l, c ≠ '%') :
    l.map ((fun c => if c = '%' then '/' else c) ∘ fun c => if c = '/' then '%' else c) = l := by
  induction l with
  | nil => rfl
  | cons d ds ih =>
    simp only [List.map_cons, Function.comp]
    rw [unescape_escape_char d (h d (by simp))]
    rw [ih (fun c hc => h c (by simp [hc]))]

/-- **C8** (confirmed). Safe-name encoding round-trip: for every valid
filesystem name (per `validate_component_name` with slashes allowed),
escaping `/` to `%` and then unescaping `%` to `/` yields the original name
exactly. (Validity matters: `%` is rejected by `validate_component_name`,
which is what makes the encoding reversible.) -/
theorem escape_roundtrip (name : String)
    (hvalid : validate_component_name name true = true) :
    unescapeName (escapeName name) = name := by
  unfold validate_component_name at hvalid
  unfold unescapeName escapeName
  cases hname : name with
  | mk data =>
    subst hname
    simp only [String.data] at hvalid ⊢
    cases data with
    | nil => rfl
    | cons c0 rest =>
      simp only [Bool.and_eq_true, List.all_eq_true] at hvalid
      congr 1
      simp only [List.map_map]
      exact map_unescape_escape (c0 :: rest) fun c hc =>
        valid_char_ne_percent c true (hvalid.2 c hc)

/-- Witness for C8 at the concrete name `a/b`. -/
theorem escape_roundtrip_witness :
    validate_component_name "a/b" true = true ∧ unescapeName (escapeName "a/b") = "a/b" :=
  ⟨by decide, escape_roundtrip "a/b" (by decide)⟩

/-! ## Dataset identities and parent derivation (`Dataset.get_parent`) -/

def splitCompGo : List Char → List Char → List String
  | [], acc => [String.mk acc.reverse]
  | c :: rest, acc =>
    if c = '/' then String.mk acc.reverse :: splitCompGo rest []
    else splitCompGo rest (c :: acc)

/-- Python `name.split('/')` (components of a dataset name). -/
def splitComponents (name : String) : List String := splitCompGo name.data []

/-- Inverse of `splitComponents` for slash-free components. -/
def joinComponents (components : List String) : String := String.intercalate "/" components

/-- A dataset reference as constructed by the Python classes. A `Filesystem`
is identified by the slash-free components of its name; a `Snapshot` carries
its owning filesystem components together with its own bare name, which is
what `Snapshot.__init__` stores in `self.name`. -/
inductive DatasetId where
  | pool (name : String)
  | fs (components : List String)
  | snap (fsComponents : List String) (snapName : String)
deriving DecidableEq

/-- `Dataset.get_parent` / `Pool.get_parent`: a pool has no parent; otherwise,
if `self.name` contains a `/`, the parent is the filesystem named by
everything before the last `/` (`self.name.rsplit('/', 1)[-2]`), else the
pool named `self.name`. Note that for a snapshot, `self.name` is the *bare*
snapshot name. -/
def getParent : DatasetId → Option DatasetId
  | .pool _ => none
  | .fs c =>
    if 2 ≤ c.length then some (.fs c.dropLast) else some (.pool (joinComponents c))
  | .snap _ s =>
    let sc := splitComponents s
    if 2 ≤ sc.length then some (.fs sc.dropLast) else some (.pool s)

def parentMeasure : DatasetId → Nat
  | .pool _ => 0
  | .fs c => c.length + 1
  | .snap _ s => (splitComponents s).length + 1

theorem getParent_measure_lt (d p : DatasetId) (h : getParent d = some p) :
    parentMeasure p < parentMeasure d := by
  cases d with
  | pool n => simp [getParent] at h
  | fs c =>
    simp only [getParent] at h
    by_cases hc : 2 ≤ c.length
    · simp only [hc, if_pos, Option.some.injEq] at h
      subst h
      simp [parentMeasure, List.length_dropLast]
      omega
    · simp only [hc, if_neg, if_false, Option.some.injEq] at h
      subst h
      simp [parentMeasure]
  | snap fc s =>
    simp only [getParent] at h
    by_cases hc : 2 ≤ (splitComponents s).length
    · simp only [hc, if_pos, Option.some.injEq] at h
      subst h
      simp [parentMeasure, List.length_dropLast]
      omega
    · simp only [hc, if_neg, if_false, Option.some.injEq] at h
      subst h
      simp [parentMeasure]

/-- The ancestor walk of `Dataset.get_inherited_properties`
(`while parent.get_parent(): parent = parent.get_parent()`), nearest first. -/
def ancestorChain (d : DatasetId) : List DatasetId :=
  match h : getParent d with
  | none => []
  | some p => p :: ancestorChain p
termination_by parentMeasure d
decreasing_by exact getParent_measure_lt d p h

/-! ## Property store (`Dataset` property methods) -/

/-- The observable on-disk state relevant to property resolution: each
dataset's `properties` directory (`none` models a missing directory, which
`listdir` reports as `OSError`), plus the environment-dependent values of
the computed `mountpoint`/`creation` attributes. -/
structure PropWorld where
  poolDirs : String → Option (List (String × String))
  fsDirs : List String → Option (List (String × String))
  snapDirs : List String → String → Option (List (String × String))
  fsMountpoint : List String → Option String
  fsCreation : List String → Option String
  snapCreation : List String → String → Option String

/-- `base_attrs` of each dataset class: `Dataset` contributes `name`;
`Filesystem` adds `mountpoint` and `creation`; `Snapshot` overrides `name`
with the full `filesystem@snapshot` name and adds `creation`. Values are
`Option String` because `mountpoint`/`creation` can be Python `None`. -/
def baseAttrs (w : PropWorld) : DatasetId → List (String × Option String)
  | .pool n => [("name", some n)]
  | .fs c =>
    [("name", some (joinComponents c)), ("mountpoint", w.fsMountpoint c),
     ("creation", w.fsCreation c)]
  | .snap fc s =>
    [("name", some (joinComponents fc ++ "@" ++ s)), ("creation", w.snapCreation fc s)]

def propDir (w : PropWorld) : DatasetId → Option (List (String × String))
  | .pool n => w.poolDirs n
  | .fs c => w.fsDirs c
  | .snap fc s => w.snapDirs fc s

/-- Python `dict` update: base entries overridden in place by `extra`, then
new keys of `extra` appended. -/
def dictUpdate (base extra : List (String × Option String)) : List (String × Option String) :=
  base.map (fun kv => (kv.1, (extra.lookup kv.1).getD kv.2))
    ++ extra.filter (fun kv => (base.lookup kv.1).isNone)

/-- `Dataset.get_local_properties` as an association list: starts from
`base_attrs`; on `OSError` (missing directory) returns just those, otherwise
each property file updates/extends the dict. -/
def localPropsList (w : PropWorld) (d : DatasetId) : List (String × Option String) :=
  match propDir w d with
  | none => baseAttrs w d
  | some entries => dictUpdate (baseAttrs w d) (entries.map (fun kv => (kv.1, some kv.2)))

/-- Lookup into `Dataset.get_local_properties`. -/
def getLocal (w : PropWorld) (d : DatasetId) (key : String) : Option (Option String) :=
  (localPropsList w d).lookup key

/-- One iteration of the `get_inherited_properties` loop body: every local
property of ancestor `a` whose key is neither already inherited nor present
in the dataset's own local properties is appended. -/
def inheritStep (w : PropWorld) (localList : List (String × Option String))
    (attrs : List (String × Option String)) (a : DatasetId) :
    List (String × Option String) :=
  (localPropsList w a).foldl
    (fun acc kv =>
      if (acc.lookup kv.1).isSome || (localList.lookup kv.1).isSome then acc
      else acc ++ [kv])
    attrs

/-- `Dataset.get_inherited_properties`: fold the loop body over the ancestor
chain, nearest ancestor first, starting from the empty dict. -/
def getInheritedList (w : PropWorld) (d : DatasetId) : List (String × Option String) :=
  (ancestorChain d).foldl (inheritStep w (localPropsList w d)) []

/-- `Dataset.get_property_and_source`: local first, then inherited, else
`(None, None)`. -/
def getPropertyAndSource (w : PropWorld) (d : DatasetId) (key : String) :
    Option String × Option String :=
  match getLocal w d key with
  | some v => (v, some "local")
  | none =>
    match (getInheritedList w d).lookup key with
    | some v => (v, some "inherited")
    | none => (none, none)

/-- Specification-side notion used by C1/C3: the local value of the *nearest*
element of a chain of ancestors that has the key at all. -/
def nearestInChain (w : PropWorld) : List DatasetId → String → Option (Option String)
  | [], _ => none
  | a :: rest, key =>
    match getLocal w a key with
    | some v => some v
    | none => nearestInChain w rest key

/-! ## Association-list lookup lemmas -/

theorem lookup_append {α : Type} (l₁ l₂ : List (String × α)) (k : String) :
    (l₁ ++ l₂).lookup k =
      (match l₁.lookup k with
       | some v => some v
       | none => l₂.lookup k) := by
  induction l₁ with
  | nil => simp [List.lookup]
  | cons kv rest ih =>
    obtain ⟨k₁, v₁⟩ := kv
    by_cases hk : k = k₁
    · subst hk
      simp [List.lookup]
    · have hbeq : (k == k₁) = false := by simp [hk]
      simp [List.lookup, hbeq, ih]

theorem lookup_keymap {α β : Type} (l : List (String × α)) (g : String → α → β) (k : String) :
    (l.map (fun kv => (kv.1, g kv.1 kv.2))).lookup k = (l.lookup k).map (g k) := by
  induction l with
  | nil => simp [List.lookup]
  | cons kv rest ih =>
    obtain ⟨k₁, v₁⟩ := kv
    by_cases hk : k = k₁
    · subst hk
      simp [List.lookup]
    · have hbeq : (k == k₁) = false := by simp [hk]
      simp [List.lookup, hbeq, ih]

theorem lookup_filterkey {α : Type} (l : List (String × α)) (q : String → Bool) (k : String) :
    (l.filter (fun kv => q kv.1)).lookup k = if q k then l.lookup k else none := by
  induction l with
  | nil => simp [List.lookup]
  | cons kv rest ih =>
    obtain ⟨k₁, v₁⟩ := kv
    by_cases hq : q k₁
    · by_cases hk : k = k₁
      · subst hk
        simp [List.lookup, List.filter, hq]
      · have hbeq : (k == k₁) = false := by simp [hk]
        simp [List.lookup, List.filter, hq, hbeq, ih]
    · by_cases hk : k = k₁
      · subst hk
        simp only [List.filter, hq]
        simp only [Bool.false_eq_true, if_false] at ih ⊢
        rw [ih]
        simp [hq]
      · have hbeq : (k == k₁) = false := by simp [hk]
        simp only [List.filter, hq]
        rw [ih]
        simp [List.lookup, hbeq]

theorem lookup_dictUpdate (base extra : List (String × Option String)) (k : String) :
    (dictUpdate base extra).lookup k =
      (match base.lookup k with
       | some v => some ((extra.lookup k).getD v)
       | none => extra.lookup k) := by
  unfold dictUpdate
  rw [lookup_append]
  rw [lookup_keymap base (fun key v => (extra.lookup key).getD v) k]
  rw [lookup_filterkey extra (fun key => (base.lookup key).isNone) k]
  cases h : base.lookup k with
  | none => simp [h]
  | some v => simp [h]

/-- Characterization of one `get_inherited_properties` inner loop: the
resulting dict has key `k` bound to `attrs`'s binding if present; otherwise
nothing if `k` is blocked by the predicate (the dataset's own local keys);
otherwise the ancestor's first binding for `k`. -/
theorem lookup_foldl_add (p : String → Bool) (items : List (String × Option String))
    (attrs : List (String × Option String)) (k : String) :
    ((items.foldl
        (fun acc kv =>
          if (acc.lookup kv.1).isSome || p kv.1 then acc else acc ++ [kv])
        attrs).lookup k)
    = (match attrs.lookup k with
       | some v => some v
       | none => if p k then none else items.lookup k) := by
  induction items generalizing attrs with
  | nil =>
    cases h : attrs.lookup k with
    | none => simp [h]
    | some v => simp [h]
  | cons kv rest ih =>
    obtain ⟨k₁, v₁⟩ := kv
    simp only [List.foldl_cons]
    by_cases hcond : ((attrs.lookup k₁).isSome || p k₁) = true
    · rw [if_pos hcond, ih]
      cases h : attrs.lookup k with
      | some v => simp
      | none =>
        by_cases hp : p k = true
        · simp [hp]
        · have hk1 : k ≠ k₁ := by
            rintro rfl
            rw [h] at hcond
            simp [hp] at hcond
          have hbeq : (k == k₁) = false := by simp [hk1]
          simp [hp, List.lookup, hbeq]
    · rw [if_neg hcond, ih]
      have hcond2 : ((attrs.lookup k₁).isSome || p k₁) = false := by
        cases h : ((attrs.lookup k₁).isSome || p k₁) with
        | false => rfl
        | true => exact absurd h hcond
      have h₁ : attrs.lookup k₁ = none := by
        cases h : attrs.lookup k₁ with
        | none => rfl
        | some v => rw [h] at hcond2; simp at hcond2
      have hp₁ : p k₁ = false := by
        cases h : p k₁ with
        | false => rfl
        | true => rw [h] at hcond2; simp at hcond2
      rw [lookup_append]
      by_cases hk : k = k₁
      · subst hk
        simp [h₁, List.lookup, hp₁]
      · have hbeq : (k == k₁) = false := by simp [hk]
        cases h : attrs.lookup k with
        | some v => simp [h, List.lookup, hbeq]
        | none => simp [h, List.lookup, hbeq]

/-- Characterization of the full ancestor fold. -/
theorem lookup_foldl_inherit (w : PropWorld) (ll : List (String × Option String))
    (chain : List DatasetId) (attrs : List (String × Option String)) (k : String) :
    ((chain.foldl (inheritStep w ll) attrs).lookup k)
    = (match attrs.lookup k with
       | some v => some v
       | none => if (ll.lookup k).isSome then none else nearestInChain w chain k) := by
  induction chain generalizing attrs with
  | nil =>
    cases h : attrs.lookup k with
    | none => simp [h, nearestInChain]
    | some v => simp [h]
  | cons a rest ih =>
    simp only [List.foldl_cons]
    rw [ih]
    rw [show inheritStep w ll attrs a
          = (localPropsList w a).foldl
              (fun acc kv =>
                if (acc.lookup kv.1).isSome || (fun s => (ll.lookup s).isSome) kv.1 then acc
                else acc ++ [kv]) attrs from rfl]
    rw [lookup_foldl_add (fun s => (ll.lookup s).isSome) (localPropsList w a) attrs k]
    cases h : attrs.lookup k with
    | some v => simp
    | none =>
      by_cases hblock : (ll.lookup k).isSome = true
      · simp [hblock]
      · simp only [Bool.not_eq_true] at hblock
        simp only [hblock, Bool.false_eq_true, if_false]
        cases ha : (localPropsList w a).lookup k with
        | some v => simp [nearestInChain, getLocal, ha]
        | none => simp [nearestInChain, getLocal, ha, hblock]

/-- The inherited dict binds `k` to the nearest ancestor's local value,
except for keys bound in the dataset's own local properties (which are never
inherited). -/
theorem getInheritedList_lookup (w : PropWorld) (d : DatasetId) (k : String) :
    (getInheritedList w d).lookup k =
      (if (getLocal w d k).isSome then none
       else nearestInChain w (ancestorChain d) k) := by
  unfold getInheritedList
  rw [lookup_foldl_inherit w (localPropsList w d) (ancestorChain d) [] k]
  simp [getLocal, List.lookup]

/-! ## Property mutation (`add_local_property`, `remove_local_property`,
and the `os.makedirs(self.properties)` performed by `Filesystem.create`) -/

def setPropDir (w : PropWorld) (d : DatasetId) (entries : Option (List (String × String))) :
    PropWorld :=
  match d with
  | .pool n => { w with poolDirs := fun m => if m = n then entries else w.poolDirs m }
  | .fs c => { w with fsDirs := fun c2 => if c2 = c then entries else w.fsDirs c2 }
  | .snap fc s =>
    { w with snapDirs := fun fc2 s2 =>
        if fc2 = fc ∧ s2 = s then entries else w.snapDirs fc2 s2 }

/-- The effect of `Filesystem.create` (and `Snapshot.create` without source
properties) on the property store: an empty properties directory appears. -/
def createPropsDir (w : PropWorld) (d : DatasetId) : PropWorld := setPropDir w d (some [])

/-- Writing a property file: overwrite the existing file or create a new one. -/
def dictSet (entries : List (String × String)) (key val : String) :
    List (String × String) :=
  if (entries.lookup key).isSome then
    entries.map (fun kv => if kv.1 = key then (kv.1, val) else kv)
  else entries ++ [(key, val)]

inductive SetResult where
  | ok
  | invalidProperty
deriving DecidableEq

/-- `Dataset.add_local_property`: first `os.makedirs(self.properties)` if the
directory is absent, then reject keys containing `/`, then write the file.
The post-state accompanies the result because the directory creation has
already happened when the key is rejected. -/
def addLocalProperty (w : PropWorld) (d : DatasetId) (key val : String) :
    PropWorld × SetResult :=
  let w1 := if (propDir w d).isNone then setPropDir w d (some []) else w
  if key.data.contains '/' then (w1, .invalidProperty)
  else (setPropDir w1 d (some (dictSet ((propDir w1 d).getD []) key val)), .ok)

inductive RemoveResult where
  | removedTrue
  | removedFalse
  | osError
deriving DecidableEq

/-- `Dataset.remove_local_property`: when `get_property_and_source` reports
source `local`, the property file is removed with `os.remove`, which raises
`OSError` if no such file exists (`.osError`); otherwise returns `False`. -/
def removeLocalProperty (w : PropWorld) (d : DatasetId) (key : String) :
    PropWorld × RemoveResult :=
  if (getPropertyAndSource w d key).2 = some "local" then
    match propDir w d with
    | some entries =>
      if (entries.lookup key).isSome then
        (setPropDir w d (some (entries.filter (fun kv => kv.1 ≠ key))), .removedTrue)
      else (w, .osError)
    | none => (w, .osError)
  else (w, .removedFalse)

theorem propDir_setPropDir (w : PropWorld) (d d2 : DatasetId)
    (entries : Option (List (String × String))) :
    propDir (setPropDir w d entries) d2 = if d2 = d then entries else propDir w d2 := by
  cases d <;> cases d2 <;>
    simp only [setPropDir, propDir] <;>
    split <;> simp_all <;>
    try (split <;> simp_all)

theorem baseAttrs_setPropDir (w : PropWorld) (d d2 : DatasetId)
    (entries : Option (List (String × String))) :
    baseAttrs (setPropDir w d entries) d2 = baseAttrs w d2 := by
  cases d <;> cases d2 <;> simp [setPropDir, baseAttrs]

theorem lookup_baseAttrs_notBuiltin (w : PropWorld) (d : DatasetId) (k : String)
    (hname : k ≠ "name") (hmp : k ≠ "mountpoint") (hcr : k ≠ "creation") :
    (baseAttrs w d).lookup k = none := by
  have hb1 : (k == "name") = false := by simp [hname]
  have hb2 : (k == "mountpoint") = false := by simp [hmp]
  have hb3 : (k == "creation") = false := by simp [hcr]
  cases d <;> simp [baseAttrs, List.lookup, hb1, hb2, hb3]

theorem getLocal_propDir (w : PropWorld) (d : DatasetId) (k : String) :
    getLocal w d k =
      (match propDir w d with
       | none => (baseAttrs w d).lookup k
       | some entries =>
         match entries.lookup k with
         | some v => some (some v)
         | none => (baseAttrs w d).lookup k) := by
  unfold getLocal localPropsList
  cases h : propDir w d with
  | none => simp
  | some entries =>
    simp only
    rw [lookup_dictUpdate]
    rw [show entries.map (fun kv => (kv.1, some kv.2))
          = entries.map (fun kv => (kv.1, (fun _ v => some v) kv.1 kv.2)) from rfl]
    rw [lookup_keymap entries (fun _ v => some v) k]
    cases hb : (baseAttrs w d).lookup k with
    | none =>
      cases he : entries.lookup k with
      | none => simp
      | some v => simp
    | some v =>
      cases he : entries.lookup k with
      | none => simp
      | some v2 => simp

theorem ancestorChain_parent (d p : DatasetId) (h : getParent d = some p) :
    ancestorChain d = p :: ancestorChain p := by
  rw [ancestorChain]
  split <;> simp_all

/-- **C1** (confirmed). Property inheritance resolution: a key bound in the
dataset's local properties resolves to that value with source `local`; an
unbound key resolves to the value of the nearest ancestor that binds it
(nearer ancestors are never overwritten by farther ones and the dataset's
own local keys are excluded from the inherited set), with source
`inherited`; otherwise resolution gives `(None, None)`. Moreover, after
`create(F)` and `set(F, K, V)`, F resolves K to `(V, local)` and a
later-created child of F resolves K to `(V, inherited)` until the child
sets K locally, at which point it resolves to the child's own value with
source `local`. (For the scenario, K must be an ordinary property key: not
one of the built-in computed attributes, and without a `/`.) -/
theorem property_inheritance_resolution
    (w : PropWorld) (d : DatasetId) (k : String)
    (w0 : PropWorld) (fc : List String) (child K V V2 : String)
    (hfc : fc ≠ [])
    (hname : K ≠ "name") (hmp : K ≠ "mountpoint") (hcr : K ≠ "creation")
    (hslash : K.data.contains '/' = false) :
    ((getInheritedList w d).lookup k =
       (if (getLocal w d k).isSome then none else nearestInChain w (ancestorChain d) k)) ∧
    (∀ v, getLocal w d k = some v → getPropertyAndSource w d k = (v, some "local")) ∧
    (∀ v, getLocal w d k = none → nearestInChain w (ancestorChain d) k = some v →
       getPropertyAndSource w d k = (v, some "inherited")) ∧
    (getLocal w d k = none → nearestInChain w (ancestorChain d) k = none →
       getPropertyAndSource w d k = (none, none)) ∧
    (getPropertyAndSource
        ((addLocalProperty (createPropsDir w0 (.fs fc)) (.fs fc) K V).1) (.fs fc) K
      = (some V, some "local")) ∧
    (getPropertyAndSource
        (createPropsDir ((addLocalProperty (createPropsDir w0 (.fs fc)) (.fs fc) K V).1)
          (.fs (fc ++ [child])))
        (.fs (fc ++ [child])) K
      = (some V, some "inherited")) ∧
    (getPropertyAndSource
        ((addLocalProperty
            (createPropsDir ((addLocalProperty (createPropsDir w0 (.fs fc)) (.fs fc) K V).1)
              (.fs (fc ++ [child])))
            (.fs (fc ++ [child])) K V2).1)
        (.fs (fc ++ [child])) K
      = (some V2, some "local")) := by
  -- facts about the scenario worlds
  have hKK : (K == K) = true := by simp
  have hslash2 : ¬ ('/' ∈ K.data) := by simpa using hslash
  have hcc : fc ++ [child] ≠ fc := by
    intro h
    have := congrArg List.length h
    simp at this
  have hccfs : (DatasetId.fs (fc ++ [child])) ≠ (DatasetId.fs fc) := by
    simp [hcc]
  have hw1dir : propDir (createPropsDir w0 (.fs fc)) (.fs fc) = some [] := by
    simp [createPropsDir, propDir_setPropDir]
  have hw2 : (addLocalProperty (createPropsDir w0 (.fs fc)) (.fs fc) K V).1
      = setPropDir (createPropsDir w0 (.fs fc)) (.fs fc) (some [(K, V)]) := by
    unfold addLocalProperty
    simp [hw1dir, hslash2, dictSet, List.lookup]
  have hw2dir : propDir (addLocalProperty (createPropsDir w0 (.fs fc)) (.fs fc) K V).1
      (.fs fc) = some [(K, V)] := by
    rw [hw2, propDir_setPropDir]
    simp
  have hw2local : getLocal (addLocalProperty (createPropsDir w0 (.fs fc)) (.fs fc) K V).1
      (.fs fc) K = some (some V) := by
    rw [getLocal_propDir, hw2dir]
    simp [List.lookup, hKK]
  have hw3dirC : propDir
      (createPropsDir ((addLocalProperty (createPropsDir w0 (.fs fc)) (.fs fc) K V).1)
        (.fs (fc ++ [child]))) (.fs (fc ++ [child])) = some [] := by
    simp [createPropsDir, propDir_setPropDir]
  have hw3dirF : propDir
      (createPropsDir ((addLocalProperty (createPropsDir w0 (.fs fc)) (.fs fc) K V).1)
        (.fs (fc ++ [child]))) (.fs fc) = some [(K, V)] := by
    rw [createPropsDir, propDir_setPropDir]
    simp only [hccfs.symm]
    rw [if_neg (by simp [hcc])]
    exact hw2dir
  have hw3localC : getLocal
      (createPropsDir ((addLocalProperty (createPropsDir w0 (.fs fc)) (.fs fc) K V).1)
        (.fs (fc ++ [child]))) (.fs (fc ++ [child])) K = none := by
    rw [getLocal_propDir, hw3dirC]
    exact lookup_baseAttrs_notBuiltin _ _ _ hname hmp hcr
  have hw3localF : getLocal
      (createPropsDir ((addLocalProperty (createPropsDir w0 (.fs fc)) (.fs fc) K V).1)
        (.fs (fc ++ [child]))) (.fs fc) K = some (some V) := by
    rw [getLocal_propDir, hw3dirF]
    simp [List.lookup, hKK]
  have hparent : getParent (.fs (fc ++ [child])) = some (.fs fc) := by
    have hlen : 2 ≤ (fc ++ [child]).length := by
      have : 1 ≤ fc.length := List.length_pos.mpr hfc
      simp only [List.length_append, List.length_cons, List.length_nil]
      omega
    simp [getParent, hlen, List.dropLast_concat, hfc]
  refine ⟨getInheritedList_lookup w d k, ?_, ?_, ?_, ?_, ?_, ?_⟩
  · intro v hv
    unfold getPropertyAndSource
    rw [hv]
  · intro v hv hnear
    unfold getPropertyAndSource
    rw [hv]
    rw [getInheritedList_lookup, hv]
    simp [hnear]
  · intro hv hnear
    unfold getPropertyAndSource
    rw [hv]
    rw [getInheritedList_lookup, hv]
    simp [hnear]
  · unfold getPropertyAndSource
    rw [hw2local]
  · unfold getPropertyAndSource
    rw [hw3localC]
    rw [getInheritedList_lookup, hw3localC]
    simp only [Option.isSome_none, Bool.false_eq_true, if_false]
    rw [ancestorChain_parent _ _ hparent]
    unfold nearestInChain
    rw [hw3localF]
  · set w3 := createPropsDir
      ((addLocalProperty (createPropsDir w0 (.fs fc)) (.fs fc) K V).1)
      (.fs (fc ++ [child])) with hw3def
    have hw4 : (addLocalProperty w3 (.fs (fc ++ [child])) K V2).1
        = setPropDir w3 (.fs (fc ++ [child])) (some [(K, V2)]) := by
      unfold addLocalProperty
      simp [hw3dirC, hslash2, dictSet, List.lookup]
    have hw4local : getLocal (addLocalProperty w3 (.fs (fc ++ [child])) K V2).1
        (.fs (fc ++ [child])) K = some (some V2) := by
      rw [hw4, getLocal_propDir, propDir_setPropDir]
      simp [List.lookup, hKK]
    unfold getPropertyAndSource
    rw [hw4local]

/-- Everything-absent property world, used by concrete witnesses. -/
def emptyWorld : PropWorld :=
  { poolDirs := fun _ => none
    fsDirs := fun _ => none
    snapDirs := fun _ _ => none
    fsMountpoint := fun _ => none
    fsCreation := fun _ => none
    snapCreation := fun _ _ => none }

/-- Witness for C1 at concrete inputs: filesystem `p`, child `p/c`,
property `k=v`. -/
theorem property_inheritance_resolution_witness :
    (["p"] : List String) ≠ [] ∧ ("k" : String) ≠ "name" ∧
    (getPropertyAndSource
        (createPropsDir
          ((addLocalProperty (createPropsDir emptyWorld (.fs ["p"])) (.fs ["p"]) "k" "v").1)
          (.fs (["p"] ++ ["c"])))
        (.fs (["p"] ++ ["c"])) "k"
      = (some "v", some "inherited")) :=
  ⟨by decide, by decide,
    (property_inheritance_resolution emptyWorld (.pool "q") "z" emptyWorld ["p"] "c" "k" "v"
      "v2" (by decide) (by decide) (by decide) (by decide) (by decide)).2.2.2.2.2.1⟩

/-! ## C3: snapshot inheritance -/

theorem ancestorChain_nil (d : DatasetId) (h : getParent d = none) :
    ancestorChain d = [] := by
  rw [ancestorChain]
  split <;> simp_all

theorem splitCompGo_no_slash (l acc : List Char) (h : ∀ c ∈ l, c ≠ '/') :
    splitCompGo l acc = [String.mk (acc.reverse ++ l)] := by
  induction l generalizing acc with
  | nil => simp [splitCompGo]
  | cons c rest ih =>
    have hc : c ≠ '/' := h c (by simp)
    simp only [splitCompGo, hc, if_neg, if_false]
    rw [ih (c :: acc) (fun x hx => h x (by simp [hx]))]
    simp

theorem splitComponents_no_slash (s : String) (hs : s.data.contains '/' = false) :
    splitComponents s = [s] := by
  unfold splitComponents
  have hmem : '/' ∉ s.data := by simpa using hs
  rw [splitCompGo_no_slash s.data [] (by
    intro c hc hceq
    subst hceq
    exact hmem hc)]
  cases s with
  | mk data => simp

/-- Modelled from the spec (claim C3): the inherited properties of a snapshot
would be computed by walking the *owning filesystem's* ancestor chain, seeded
by the snapshot's own local property copy: a key not in the snapshot's local
copy resolves to the nearest ancestor of the filesystem that defines it. -/
def snapInheritedSpec (w : PropWorld) (fc : List String) (s : String) (key : String) :
    Option (Option String) :=
  if (getLocal w (.snap fc s) key).isSome then none
  else nearestInChain w (ancestorChain (.fs fc)) key

/-- Concrete world for the C3 counterexample: pool `p` stores `k=v` locally;
filesystems `p` and `p/f` and snapshot `p/f@s1` exist with empty property
directories; no pool named `s1` exists. -/
def c3World : PropWorld :=
  { poolDirs := fun n => if n = "p" then some [("k", "v")] else none
    fsDirs := fun c => if c = ["p"] ∨ c = ["p", "f"] then some [] else none
    snapDirs := fun fc s => if fc = ["p", "f"] ∧ s = "s1" then some [] else none
    fsMountpoint := fun _ => none
    fsCreation := fun _ => none
    snapCreation := fun _ _ => none }

/-- **C3** (counterexample). In the world `c3World`, the claimed resolution
(walking the owning filesystem's ancestry) would give `k = v` with source
`inherited` for the snapshot, but the code resolves `k` on the snapshot to
`(None, None)`: `Dataset.get_parent` uses the snapshot's *bare* name, so the
walk visits the (nonexistent) pool `s1` instead of `p/f`'s ancestors. -/
theorem snapshot_inheritance_counterexample :
    snapInheritedSpec c3World ["p", "f"] "s1" "k" = some (some "v") ∧
    getPropertyAndSource c3World (.snap ["p", "f"] "s1") "k" = (none, none) := by
  have hsnapParent : getParent (.snap ["p", "f"] "s1") = some (.pool "s1") := by
    rw [getParent]
    rw [splitComponents_no_slash "s1" (by decide)]
    simp
  have hA : ancestorChain (.snap ["p", "f"] "s1") = [.pool "s1"] := by
    rw [ancestorChain_parent _ _ hsnapParent, ancestorChain_nil _ (by rw [getParent])]
  have hfsParent : getParent (.fs ["p", "f"]) = some (.fs ["p"]) := by
    rw [getParent]
    simp
  have hfsParent2 : getParent (.fs ["p"]) = some (.pool "p") := by
    rw [getParent]
    simp [joinComponents]
    rfl
  have hB : ancestorChain (.fs ["p", "f"]) = [.fs ["p"], .pool "p"] := by
    rw [ancestorChain_parent _ _ hfsParent, ancestorChain_parent _ _ hfsParent2,
      ancestorChain_nil _ (by rw [getParent])]
  constructor
  · unfold snapInheritedSpec
    rw [hB]
    decide
  · unfold getPropertyAndSource getInheritedList
    rw [hA]
    decide

/-- **C3** (amended). For a snapshot with a slash-free bare name `s`, the
inheritance walk visits exactly one ancestor, the pool named `s` (derived
from the snapshot's bare name, not from the owning filesystem): a key not in
the snapshot's local copy resolves to that pool's local value, if any, and a
snapshot inherits nothing from its owning filesystem's ancestors. -/
theorem snapshot_inheritance_amended (w : PropWorld) (fc : List String) (s k : String)
    (hs : s.data.contains '/' = false) :
    ancestorChain (.snap fc s) = [.pool s] ∧
    (getInheritedList w (.snap fc s)).lookup k =
      (if (getLocal w (.snap fc s) k).isSome then none
       else getLocal w (.pool s) k) := by
  have hparent : getParent (.snap fc s) = some (.pool s) := by
    rw [getParent]
    rw [splitComponents_no_slash s hs]
    simp
  have hchain : ancestorChain (.snap fc s) = [.pool s] := by
    rw [ancestorChain_parent _ _ hparent, ancestorChain_nil _ (by rw [getParent])]
  refine ⟨hchain, ?_⟩
  rw [getInheritedList_lookup, hchain]
  by_cases hl : (getLocal w (.snap fc s) k).isSome = true
  · simp [hl]
  · simp only [Bool.not_eq_true] at hl
    simp only [hl, Bool.false_eq_true, if_false]
    unfold nearestInChain
    cases h : getLocal w (.pool s) k with
    | none => simp [nearestInChain]
    | some v => simp

/-- Witness for the amended C3 at the counterexample world. -/
theorem snapshot_inheritance_amended_witness :
    ("s1" : String).data.contains '/' = false ∧
    ancestorChain (.snap ["p", "f"] "s1") = [.pool "s1"] :=
  ⟨by decide,
    (snapshot_inheritance_amended c3World ["p", "f"] "s1" "k" (by decide)).1⟩

/-! ## C9: `add_local_property` error path -/

/-- **C9** (confirmed). When `add_local_property` is called with a key
containing `/`, it reports an invalid-property error and writes nothing, but
the error path is not state-preserving: the properties directory is created
(empty) before the key is validated, so the post-state always has the
directory present, with unchanged entries. -/
theorem add_local_property_invalid_key (w : PropWorld) (d : DatasetId) (key val : String)
    (hkey : key.data.contains '/' = true) :
    (addLocalProperty w d key val).2 = .invalidProperty ∧
    propDir (addLocalProperty w d key val).1 d = some ((propDir w d).getD []) := by
  have hres : addLocalProperty w d key val
      = ((if (propDir w d).isNone then setPropDir w d (some []) else w),
          .invalidProperty) := by
    unfold addLocalProperty
    rw [if_pos hkey]
  rw [hres]
  refine ⟨rfl, ?_⟩
  cases h : propDir w d with
  | none => simp [h, propDir_setPropDir]
  | some entries => simp [h]

/-- Witness for C9: setting `a/b` on a filesystem with no properties
directory yields the error and an (empty) directory. -/
theorem add_local_property_invalid_key_witness :
    ("a/b" : String).data.contains '/' = true ∧
    (addLocalProperty emptyWorld (.fs ["p"]) "a/b" "x").2 = .invalidProperty ∧
    propDir (addLocalProperty emptyWorld (.fs ["p"]) "a/b" "x").1 (.fs ["p"])
      = some ((propDir emptyWorld (.fs ["p"])).getD []) :=
  ⟨by decide,
    (add_local_property_invalid_key emptyWorld (.fs ["p"]) "a/b" "x" (by decide)).1,
    (add_local_property_invalid_key emptyWorld (.fs ["p"]) "a/b" "x" (by decide)).2⟩

/-! ## C10: `remove_local_property` on built-in computed attributes -/

/-- **C10** (confirmed). A built-in computed attribute key (`name`, and for
filesystems `mountpoint`/`creation`) is reported with source `local` by
`get_property_and_source` even though no property file backs it; applying
`remove_local_property` to such a key therefore attempts `os.remove` on a
nonexistent file and raises an uncaught `OSError` instead of returning
`False`. -/
theorem remove_builtin_attr_oserror (w : PropWorld) (d : DatasetId) (key : String)
    (hbase : ((baseAttrs w d).lookup key).isSome = true)
    (hfile : ∀ entries, propDir w d = some entries → entries.lookup key = none) :
    (getPropertyAndSource w d key).2 = some "local" ∧
    removeLocalProperty w d key = (w, .osError) := by
  obtain ⟨v, hv⟩ := Option.isSome_iff_exists.mp hbase
  have hlocal : getLocal w d key = some v := by
    rw [getLocal_propDir]
    cases h : propDir w d with
    | none => simpa using hv
    | some entries =>
      simp only
      rw [hfile entries h]
      simpa using hv
  have hsrc : (getPropertyAndSource w d key).2 = some "local" := by
    unfold getPropertyAndSource
    rw [hlocal]
  refine ⟨hsrc, ?_⟩
  unfold removeLocalProperty
  rw [if_pos hsrc]
  cases h : propDir w d with
  | none => rfl
  | some entries =>
    simp only
    rw [hfile entries h]
    simp

/-- Witness for C10: removing `name` from a filesystem whose properties
directory does not contain a `name` file raises the OS error. -/
theorem remove_builtin_attr_oserror_witness :
    ((baseAttrs emptyWorld (.fs ["p"])).lookup "name").isSome = true ∧
    removeLocalProperty emptyWorld (.fs ["p"]) "name" = (emptyWorld, .osError) :=
  ⟨by decide,
    (remove_builtin_attr_oserror emptyWorld (.fs ["p"]) "name" (by decide)
      (fun entries h => by simp [propDir, emptyWorld] at h)).2⟩

/-! ## File trees: the pool backing storage as a directory tree -/

inductive FileTree where
  | file (content : String)
  | dir (children : List (String × FileTree))

/-- Resolve a relative path inside a tree. -/
def lookupPath : List String → FileTree → Option FileTree
  | [], t => some t
  | _ :: _, .file _ => none
  | n :: p, .dir cs =>
    match cs.lookup n with
    | some child => lookupPath p child
    | none => none

/-- Set the binding for key `n`, preserving position, appending if absent. -/
def assocSet {α : Type} : List (String × α) → String → α → List (String × α)
  | [], n, t => [(n, t)]
  | (k, v) :: rest, n, t =>
    if k = n then (k, t) :: rest else (k, v) :: assocSet rest n t

/-- `os.makedirs` semantics on a tree: ensure directories exist along the
path (a blocking file is left untouched, as the caller swallows the error). -/
def mkdirAt : List String → FileTree → FileTree
  | [], t => t
  | _ :: _, .file c => .file c
  | n :: p, .dir cs =>
    match cs.lookup n with
    | some child => .dir (assocSet cs n (mkdirAt p child))
    | none => .dir (cs ++ [(n, mkdirAt p (.dir []))])

/-- Write a file at a path, creating intermediate directories
(`tarfile.extractall` semantics, overwriting an existing entry). -/
def writeFileAt : List String → String → FileTree → FileTree
  | [], _, t => t
  | _ :: _, _, .file c => .file c
  | [n], content, .dir cs => .dir (assocSet cs n (.file content))
  | n :: p, content, .dir cs =>
    match cs.lookup n with
    | some child => .dir (assocSet cs n (writeFileAt p content child))
    | none => .dir (cs ++ [(n, writeFileAt p content (.dir []))])

/-- `shutil.rmtree` of the subtree at a (nonempty) path. -/
def removeAt : List String → FileTree → FileTree
  | [], t => t
  | [n], .dir cs => .dir (cs.filter (fun kv => kv.1 ≠ n))
  | _ :: _, .file c => .file c
  | n :: p, .dir cs =>
    match cs.lookup n with
    | some child => .dir (assocSet cs n (removeAt p child))
    | none => .dir cs

/-- Place a subtree at a path (`shutil.copytree`/`shutil.move` destination). -/
def graftAt : List String → FileTree → FileTree → FileTree
  | [], sub, _ => sub
  | _ :: _, _, .file c => .file c
  | [n], sub, .dir cs => .dir (assocSet cs n sub)
  | n :: p, sub, .dir cs =>
    match cs.lookup n with
    | some child => .dir (assocSet cs n (graftAt p sub child))
    | none => .dir (cs ++ [(n, graftAt p sub (.dir []))])

/-! ## The managed root state -/

/-- The on-disk state of a ZzzFS root, as observed by `dataset.py`:
existing pools, each pool's backing data tree, the set of filesystem
metadata roots (unescaped full names), filesystem property directories,
snapshot roots and their copied data/property directories. -/
structure ZState where
  pools : List String
  poolData : String → Option FileTree
  fsRoots : List String
  fsProps : String → Option (List (String × String))
  snapRoots : List (String × String)
  snapData : String → String → Option FileTree
  snapProps : String → String → Option (List (String × String))

/-- `Filesystem.__init__`'s pool derivation: walk `get_parent` to the top,
i.e. the first `/`-separated component of the name. -/
def poolOf (name : String) : String := (splitComponents name).headD ""

/-- `self.poolless_name` (the name without the leading pool component),
as path components inside the pool's backing storage. -/
def poollessComponents (name : String) : List String := (splitComponents name).tail

/-- Python `name.startswith(pre)`. -/
def strStartsWith (pre s : String) : Bool := pre.data.isPrefixOf s.data

/-! ## Identifier resolution (`get_dataset_by`) -/

inductive DsRef where
  | fs (name : String)
  | snap (fsName snapName : String)
deriving DecidableEq

inductive DsKind where
  | filesystemK
  | snapshotK
deriving DecidableEq

inductive ZErr where
  | invalidDataset
  | invalidSnapshotName
  | notAFilesystem
  | notASnapshot
  | noSuchDataset
  | datasetExists
  | noSuchPool
  | noSuchFilesystem
  | invalidPropertyKey
  | parentMissing
  | hasChildren
  | rmtreeMissing
  | rmdirFailed
  | moveMissing
  | copytreeMissing
  | mismatchedFilesystems
  | differentPools
  | streamDecodeFailure
  | makedirsExists
  | moveIntoItself
  | moveDestExists
  | outOfFuel
deriving DecidableEq

def countChar (ch : Char) (s : String) : Nat := s.data.count ch

def splitOnceGo (ch : Char) : List Char → List Char → String × String
  | [], acc => (String.mk acc.reverse, "")
  | c :: rest, acc =>
    if c = ch then (String.mk acc.reverse, String.mk rest)
    else splitOnceGo ch rest (c :: acc)

/-- Python `s.split(ch, 1)` for a string containing `ch`. -/
def splitOnce (ch : Char) (s : String) : String × String := splitOnceGo ch s.data []

/-- The parsing/validation part of `get_dataset_by` (dataset.py:74-94):
split a single `@`, validate the filesystem part (slashes allowed) and, for
a nonempty snapshot part, the snapshot name; then check the `should_be`
type constraint. -/
def parseDatasetId (datasetName : String) (shouldBe : Option DsKind) : Except ZErr DsRef :=
  let pair : String × Option String :=
    if countChar '@' datasetName == 1 then
      ((splitOnce '@' datasetName).1, some (splitOnce '@' datasetName).2)
    else (datasetName, none)
  if validate_component_name pair.1 true = false then .error .invalidDataset
  else
    let obj : Except ZErr DsRef :=
      match pair.2 with
      | some s =>
        if s ≠ "" then
          if validate_component_name s false = false then .error .invalidSnapshotName
          else .ok (.snap pair.1 s)
        else .ok (.fs datasetName)
      | none => .ok (.fs datasetName)
    match obj with
    | .error e => .error e
    | .ok o =>
      match shouldBe, o with
      | some .snapshotK, .fs _ => .error .notASnapshot
      | some .filesystemK, .snap _ _ => .error .notAFilesystem
      | _, _ => .ok o

def dsExists (z : ZState) : DsRef → Bool
  | .fs n => z.fsRoots.contains n
  | .snap f s => z.snapRoots.contains (f, s)

def dsPool : DsRef → String
  | .fs n => poolOf n
  | .snap f _ => poolOf f

/-- `get_dataset_by` (dataset.py:67-106): parse and type-check, then the
existence checks (dataset must/must not exist), then — last — the owning
pool's existence check. -/
def getDatasetBy (z : ZState) (datasetName : String) (shouldBe : Option DsKind := none)
    (shouldExist : Option Bool := some true) : Except ZErr DsRef :=
  match parseDatasetId datasetName shouldBe with
  | .error e => .error e
  | .ok obj =>
    if shouldExist = some true ∧ dsExists z obj = false then .error .noSuchDataset
    else if dsExists z obj = true ∧ shouldExist = some false then .error .datasetExists
    else if z.pools.contains (dsPool obj) = false then .error .noSuchPool
    else .ok obj

/-- Completely empty managed root. -/
def emptyZ : ZState :=
  { pools := []
    poolData := fun _ => none
    fsRoots := []
    fsProps := fun _ => none
    snapRoots := []
    snapData := fun _ _ => none
    snapProps := fun _ _ => none }

/-- **C6** (counterexample). With no pools at all and the default existence
constraint (`should_exist=True`), resolving `p/f` fails with the
no-such-dataset error, not the no-such-pool error: the existence check at
dataset.py:96 runs before the pool check at dataset.py:103. -/
theorem pool_check_counterexample :
    getDatasetBy emptyZ "p/f" none (some true) = .error .noSuchDataset ∧
    ZErr.noSuchDataset ≠ ZErr.noSuchPool := by
  constructor
  · rfl
  · decide

/-- **C6** (amended). When the owning pool is absent (and hence the dataset
itself does not exist), resolution fails with no-such-pool only under the
unchecked (`None`) or must-not-exist (`False`) existence constraints; under
the default must-exist (`True`) constraint the no-such-dataset error fires
first. -/
theorem pool_absent_resolution (z : ZState) (name : String) (obj : DsRef)
    (se : Option Bool)
    (hparse : parseDatasetId name none = .ok obj)
    (hpool : z.pools.contains (dsPool obj) = false)
    (hex : dsExists z obj = false) :
    getDatasetBy z name none se =
      .error (if se = some true then .noSuchDataset else .noSuchPool) := by
  unfold getDatasetBy
  rw [hparse]
  by_cases hse : se = some true
  · subst hse
    simp [hex]
  · have hpool2 : dsPool obj ∉ z.pools := by simpa using hpool
    simp [hex, hse, hpool2]

/-- Witness for the amended C6: resolving `p/f` in the empty root with the
unchecked constraint yields no-such-pool. -/
theorem pool_absent_resolution_witness :
    parseDatasetId "p/f" none = .ok (.fs "p/f") ∧
    getDatasetBy emptyZ "p/f" none none = .error .noSuchPool := by
  refine ⟨rfl, ?_⟩
  have h := pool_absent_resolution emptyZ "p/f" (.fs "p/f") none rfl (by rfl) (by rfl)
  simpa using h

/-! ## C7: `zfs.snapshot` batch -/

/-- `Snapshot.create`: `os.makedirs(self.root)` (failing if the root already
exists), then `shutil.copytree` of the filesystem's data (failing if the
data directory is unresolvable — note the root creation persists), then the
filesystem's local properties are copied (an empty directory when there are
none). Returns the post-state together with an optional error. -/
def snapshotCreate (z : ZState) (f s : String) : ZState × Option ZErr :=
  if z.snapRoots.contains (f, s) then (z, some .makedirsExists)
  else
    let z1 : ZState := { z with snapRoots := z.snapRoots ++ [(f, s)] }
    match z.poolData (poolOf f) with
    | none => (z1, some .copytreeMissing)
    | some pd =>
      match lookupPath (poollessComponents f) pd with
      | none => (z1, some .copytreeMissing)
      | some t =>
        ({ z1 with
            snapData := fun f2 s2 => if f2 = f ∧ s2 = s then some t else z.snapData f2 s2
            snapProps := fun f2 s2 =>
              if f2 = f ∧ s2 = s then some ((z.fsProps f).getD []) else z.snapProps f2 s2 },
          none)

/-- `Dataset.add_local_property` on a snapshot of the managed root. -/
def zAddSnapLocalProperty (z : ZState) (f s key val : String) : ZState × Option ZErr :=
  let z1 : ZState :=
    if (z.snapProps f s).isNone then
      { z with snapProps := fun f2 s2 =>
          if f2 = f ∧ s2 = s then some [] else z.snapProps f2 s2 }
    else z
  if key.data.contains '/' then (z1, some .invalidPropertyKey)
  else
    ({ z1 with snapProps := fun f2 s2 =>
        if f2 = f ∧ s2 = s then some (dictSet ((z1.snapProps f s).getD []) key val)
        else z1.snapProps f2 s2 },
      none)

def applySnapProps (z : ZState) (f s : String) :
    List (String × String) → ZState × Option ZErr
  | [] => (z, none)
  | (k, v) :: rest =>
    match zAddSnapLocalProperty z f s k v with
    | (z1, some e) => (z1, some e)
    | (z1, none) => applySnapProps z1 f s rest

/-- One iteration of the `zfs.snapshot` loop: resolve the identifier as a
not-yet-existing snapshot, require the owning filesystem to exist, create
the snapshot, then apply the supplied properties. -/
def snapshotOne (z : ZState) (i : String) (properties : List (String × String)) :
    ZState × Option ZErr :=
  match getDatasetBy z i (some .snapshotK) (some false) with
  | .error e => (z, some e)
  | .ok (.fs _) => (z, some .notASnapshot)
  | .ok (.snap f s) =>
    if z.fsRoots.contains f = false then (z, some .noSuchFilesystem)
    else
      match snapshotCreate z f s with
      | (z1, some e) => (z1, some e)
      | (z1, none) => applySnapProps z1 f s properties

/-- `zfs.snapshot` over its identifier list, as the CLI driver consumes the
generator in full: entries left to right, the first raised error aborts the
remaining entries, effects of completed entries persist. -/
def snapshotBatch (z : ZState) (identifiers : List String)
    (properties : List (String × String)) : ZState × Option ZErr :=
  match identifiers with
  | [] => (z, none)
  | i :: rest =>
    match snapshotOne z i properties with
    | (z1, some e) => (z1, some e)
    | (z1, none) => snapshotBatch z1 rest properties

/-- **C7** (confirmed). A batch containing the same snapshot identifier
twice (over an existing filesystem): the first occurrence is created and
stays committed, the second fails with the already-exists error, and the
final state is exactly the input state plus the first snapshot — entries
are independent, with no whole-batch rollback. -/
theorem snapshot_batch_duplicate (z : ZState) (i f s : String) (pd t : FileTree)
    (hparse : parseDatasetId i (some .snapshotK) = .ok (.snap f s))
    (hfs : z.fsRoots.contains f = true)
    (hsnap : z.snapRoots.contains (f, s) = false)
    (hpool : z.pools.contains (poolOf f) = true)
    (hpd : z.poolData (poolOf f) = some pd)
    (hlook : lookupPath (poollessComponents f) pd = some t) :
    snapshotBatch z [i, i] [] =
      ({ z with
          snapRoots := z.snapRoots ++ [(f, s)]
          snapData := fun f2 s2 => if f2 = f ∧ s2 = s then some t else z.snapData f2 s2
          snapProps := fun f2 s2 =>
            if f2 = f ∧ s2 = s then some ((z.fsProps f).getD []) else z.snapProps f2 s2 },
        some .datasetExists) := by
  have hsnap2 : (f, s) ∉ z.snapRoots := by simpa using hsnap
  have hpool2 : poolOf f ∈ z.pools := by simpa using hpool
  have hresolve1 : getDatasetBy z i (some .snapshotK) (some false) = .ok (.snap f s) := by
    unfold getDatasetBy
    rw [hparse]
    simp [dsExists, hsnap2, dsPool, hpool2]
  have hcreate : snapshotCreate z f s =
      ({ z with
          snapRoots := z.snapRoots ++ [(f, s)]
          snapData := fun f2 s2 => if f2 = f ∧ s2 = s then some t else z.snapData f2 s2
          snapProps := fun f2 s2 =>
            if f2 = f ∧ s2 = s then some ((z.fsProps f).getD []) else z.snapProps f2 s2 },
        none) := by
    unfold snapshotCreate
    rw [if_neg (by simpa using hsnap2), hpd]
    simp only [hlook]
  set z1 : ZState :=
    { z with
        snapRoots := z.snapRoots ++ [(f, s)]
        snapData := fun f2 s2 => if f2 = f ∧ s2 = s then some t else z.snapData f2 s2
        snapProps := fun f2 s2 =>
          if f2 = f ∧ s2 = s then some ((z.fsProps f).getD []) else z.snapProps f2 s2 }
    with hz1
  have hexists2 : dsExists z1 (.snap f s) = true := by
    simp [dsExists, hz1]
  have hresolve2 : getDatasetBy z1 i (some .snapshotK) (some false)
      = .error .datasetExists := by
    unfold getDatasetBy
    rw [hparse]
    simp [hexists2]
  unfold snapshotBatch snapshotOne
  rw [hresolve1]
  simp only [hfs, Bool.true_eq_false, if_false, if_neg]
  rw [hcreate]
  simp only [applySnapProps]
  unfold snapshotBatch snapshotOne
  rw [hresolve2]

/-- Concrete root for the C7 witness: pool `p` with empty backing data and
its root filesystem. -/
def c7Z : ZState :=
  { pools := ["p"]
    poolData := fun n => if n = "p" then some (.dir []) else none
    fsRoots := ["p"]
    fsProps := fun _ => none
    snapRoots := []
    snapData := fun _ _ => none
    snapProps := fun _ _ => none }

/-- Witness for C7: `zzzfs snapshot p@s1 p@s1` creates the first snapshot
and fails on the second with already-exists. -/
theorem snapshot_batch_duplicate_witness :
    (snapshotBatch c7Z ["p@s1", "p@s1"] []).2 = some .datasetExists ∧
    (snapshotBatch c7Z ["p@s1", "p@s1"] []).1.snapRoots = [("p", "s1")] := by
  have h := snapshot_batch_duplicate c7Z "p@s1" "p" "s1" (.dir []) (.dir [])
    rfl rfl rfl rfl rfl rfl
  constructor
  · rw [congrArg Prod.snd h]
  · rw [congrArg (fun q => q.1.snapRoots) h]
    rfl

/-! ## C2: `Filesystem.destroy` -/

/-- Removal events, in execution order: `rmData f` is the
`shutil.rmtree(self.mountpoint)` of `f`'s data, `rmRoot f` the
`shutil.rmtree(self.root)` of `f`'s metadata. -/
inductive DEv where
  | rmData (f : String)
  | rmRoot (f : String)
deriving DecidableEq

def evName : DEv → String
  | .rmData g => g
  | .rmRoot g => g

/-- `os.path.exists(self.mountpoint)`: the data symlink resolves (metadata
root present) and its target exists in the pool's backing storage. -/
def mountpointIsPresent (z : ZState) (f : String) : Bool :=
  z.fsRoots.contains f &&
    (match z.poolData (poolOf f) with
     | none => false
     | some pd => (lookupPath (poollessComponents f) pd).isSome)

/-- `shutil.rmtree(self.mountpoint)`: remove `f`'s data subtree (for a
pool-root filesystem this is the pool's whole data directory). -/
def rmDataTree (z : ZState) (f : String) : ZState :=
  match poollessComponents f with
  | [] => { z with poolData := fun p => if p = poolOf f then none else z.poolData p }
  | comps =>
    { z with poolData := fun p =>
        if p = poolOf f then (z.poolData p).map (removeAt comps) else z.poolData p }

/-- `shutil.rmtree(self.root)`: the metadata root disappears together with
its `properties` and `snapshots` subdirectories. -/
def rmRootFs (z : ZState) (f : String) : ZState :=
  { z with
      fsRoots := z.fsRoots.filter (fun g => g ≠ f)
      fsProps := fun g => if g = f then none else z.fsProps g
      snapRoots := z.snapRoots.filter (fun q => q.1 ≠ f)
      snapData := fun f2 s2 => if f2 = f then none else z.snapData f2 s2
      snapProps := fun f2 s2 => if f2 = f then none else z.snapProps f2 s2 }

/-- The `for f in dependencies: f.destroy(recursive)` loop: a raised error
aborts the remaining iterations. -/
def depsLoop (step : ZState → String → Except ZErr (ZState × List DEv)) :
    ZState → List String → Except ZErr (ZState × List DEv)
  | z, [] => .ok (z, [])
  | z, d :: rest =>
    match step z d with
    | .error e => .error e
    | .ok (z1, evs1) =>
      match depsLoop step z1 rest with
      | .error e => .error e
      | .ok (z2, evs2) => .ok (z2, evs1 ++ evs2)

/-- `Filesystem.destroy`: list descendants by name-prefix match against the
pool's live filesystem listing; refuse (has-children) when non-recursive and
descendants exist; remove own data if present, then own metadata root
(`shutil.rmtree` raises when it is already gone); then destroy each listed
descendant in turn. `fuel` bounds the recursion depth; `destroyFs` below
supplies more than any run can nest. -/
def destroyFsGo : Nat → ZState → String → Bool → Except ZErr (ZState × List DEv)
  | 0, _, _, _ => .error .outOfFuel
  | fuel + 1, z, f, recursive =>
    let dependencies := z.fsRoots.filter (fun g => strStartsWith (f ++ "/") g)
    if dependencies ≠ [] ∧ recursive = false then .error .hasChildren
    else
      let zev : ZState × List DEv :=
        if mountpointIsPresent z f then (rmDataTree z f, [DEv.rmData f]) else (z, [])
      if zev.1.fsRoots.contains f = false then .error .rmtreeMissing
      else
        match depsLoop (fun z2 d => destroyFsGo fuel z2 d recursive)
            (rmRootFs zev.1 f) dependencies with
        | .error e => .error e
        | .ok (z2, evs) => .ok (z2, zev.2 ++ DEv.rmRoot f :: evs)

def destroyFs (z : ZState) (f : String) (recursive : Bool) :
    Except ZErr (ZState × List DEv) :=
  destroyFsGo (z.fsRoots.length + 1) z f recursive

/-- The order claimed by the specification: after any removal event naming
`f` itself, no event may name a strict descendant of `f` (descendants are
removed first, post-order). -/
def noDescendantEventAfterOwn (f : String) : List DEv → Bool
  | [] => true
  | ev :: rest =>
    ((if evName ev = f then
        rest.all (fun e2 => !(strStartsWith (f ++ "/") (evName e2)))
      else true) : Bool)
      && noDescendantEventAfterOwn f rest

/-- Pool `p` containing filesystems `p`, `p/a` and `p/a/b`, used as the C2
counterexample. -/
def c2Z : ZState :=
  { pools := ["p"]
    poolData := fun n => if n = "p" then some (.dir [("a", .dir [("b", .dir [])])]) else none
    fsRoots := ["p", "p/a", "p/a/b"]
    fsProps := fun _ => none
    snapRoots := []
    snapData := fun _ _ => none
    snapProps := fun _ _ => none }

/-- **C2** (counterexample). Recursive destroy of `p/a` (child `p/a/b`)
removes `p/a`'s own data and metadata root *before* touching the
descendant, so the claimed descendants-first (post-order) removal order is
violated: the trace is `[rmData p/a, rmRoot p/a, rmRoot p/a/b]`. -/
theorem destroy_order_counterexample :
    (destroyFs c2Z "p/a" true).toOption.map Prod.snd
      = some [DEv.rmData "p/a", DEv.rmRoot "p/a", DEv.rmRoot "p/a/b"] ∧
    noDescendantEventAfterOwn "p/a"
      [DEv.rmData "p/a", DEv.rmRoot "p/a", DEv.rmRoot "p/a/b"] = false := by
  exact ⟨rfl, by decide⟩

theorem startsWith_trans (f d e : String)
    (h1 : strStartsWith (f ++ "/") d = true)
    (h2 : strStartsWith (d ++ "/") e = true) :
    strStartsWith (f ++ "/") e = true := by
  unfold strStartsWith at h1 h2 ⊢
  rw [List.isPrefixOf_iff_prefix] at h1 h2 ⊢
  rw [String.data_append] at h2
  exact h1.trans ((List.prefix_append d.data _).trans h2)

theorem startsWith_ne (f g : String) (h : strStartsWith (f ++ "/") g = true) : g ≠ f := by
  unfold strStartsWith at h
  rw [List.isPrefixOf_iff_prefix] at h
  intro hgf
  subst hgf
  have hlen := h.length_le
  rw [String.data_append] at hlen
  simp at hlen

theorem rmDataTree_fsRoots (z : ZState) (f : String) :
    (rmDataTree z f).fsRoots = z.fsRoots := by
  unfold rmDataTree
  split <;> rfl

theorem depsLoop_ok (fuel : Nat) (r : Bool)
    (IH : ∀ z f z2 tr, destroyFsGo fuel z f r = .ok (z2, tr) →
      (∀ g, g ∈ z2.fsRoots →
        g ∈ z.fsRoots ∧ g ≠ f ∧ strStartsWith (f ++ "/") g = false) ∧
      (∃ rest, tr = (if mountpointIsPresent z f then [DEv.rmData f] else [])
          ++ DEv.rmRoot f :: rest ∧
          ∀ e ∈ rest, strStartsWith (f ++ "/") (evName e) = true)) :
    ∀ deps z z2 tr,
      depsLoop (fun z1 d => destroyFsGo fuel z1 d r) z deps = .ok (z2, tr) →
      (∀ g, g ∈ z2.fsRoots → g ∈ z.fsRoots ∧ ∀ d ∈ deps, g ≠ d) ∧
      (∀ e ∈ tr, ∃ d ∈ deps,
        evName e = d ∨ strStartsWith (d ++ "/") (evName e) = true) := by
  intro deps
  induction deps with
  | nil =>
    intro z z2 tr h
    simp only [depsLoop, Except.ok.injEq, Prod.mk.injEq] at h
    obtain ⟨rfl, rfl⟩ := h
    exact ⟨fun g hg => ⟨hg, by simp⟩, by simp⟩
  | cons d rest ih =>
    intro z z2 tr h
    simp only [depsLoop] at h
    cases hstep : destroyFsGo fuel z d r with
    | error e => rw [hstep] at h; simp at h
    | ok pair =>
      obtain ⟨za, e1⟩ := pair
      rw [hstep] at h
      simp only at h
      cases hrest : depsLoop (fun z1 d2 => destroyFsGo fuel z1 d2 r) za rest with
      | error e => rw [hrest] at h; simp at h
      | ok pair2 =>
        obtain ⟨zb, e2⟩ := pair2
        rw [hrest] at h
        simp only [Except.ok.injEq, Prod.mk.injEq] at h
        obtain ⟨rfl, rfl⟩ := h
        obtain ⟨survA, restA, htrA, hrestA⟩ := IH z d za e1 hstep
        obtain ⟨survB, evB⟩ := ih za zb e2 hrest
        constructor
        · intro g hg
          obtain ⟨hga, hdrest⟩ := survB g hg
          obtain ⟨hgz, hgd, _⟩ := survA g hga
          refine ⟨hgz, ?_⟩
          intro d2 hd2
          rcases List.mem_cons.mp hd2 with h1 | h2
          · subst h1; exact hgd
          · exact hdrest d2 h2
        · intro e he
          rcases List.mem_append.mp he with he1 | he2
          · rw [htrA] at he1
            refine ⟨d, List.mem_cons_self d rest, ?_⟩
            rcases List.mem_append.mp he1 with hh | ht
            · left
              by_cases hmp : mountpointIsPresent z d = true
              · rw [if_pos hmp] at hh
                simp only [List.mem_singleton] at hh
                subst hh
                rfl
              · rw [if_neg hmp] at hh
                simp at hh
            · rcases List.mem_cons.mp ht with h1 | h2
              · subst h1; left; rfl
              · right; exact hrestA e h2
          · obtain ⟨d2, hd2, hc⟩ := evB e he2
            exact ⟨d2, List.mem_cons_of_mem d hd2, hc⟩

theorem destroyFsGo_ok (fuel : Nat) :
    ∀ z f r z2 tr, destroyFsGo fuel z f r = .ok (z2, tr) →
      (∀ g, g ∈ z2.fsRoots →
        g ∈ z.fsRoots ∧ g ≠ f ∧ strStartsWith (f ++ "/") g = false) ∧
      (∃ rest, tr = (if mountpointIsPresent z f then [DEv.rmData f] else [])
          ++ DEv.rmRoot f :: rest ∧
          ∀ e ∈ rest, strStartsWith (f ++ "/") (evName e) = true) := by
  induction fuel with
  | zero =>
    intro z f r z2 tr h
    simp [destroyFsGo] at h
  | succ fuel IH =>
    intro z f r z2 tr h
    simp only [destroyFsGo] at h
    by_cases hchild :
        (z.fsRoots.filter (fun g => strStartsWith (f ++ "/") g) ≠ [] ∧ r = false)
    · rw [if_pos hchild] at h; simp at h
    · rw [if_neg hchild] at h
      by_cases hmp : mountpointIsPresent z f = true
      · rw [if_pos hmp] at h
        simp only at h
        by_cases hroot : (rmDataTree z f).fsRoots.contains f = false
        · rw [if_pos hroot] at h; simp at h
        · rw [if_neg hroot] at h
          cases hloop : depsLoop (fun z2 d => destroyFsGo fuel z2 d r)
              (rmRootFs (rmDataTree z f) f)
              (z.fsRoots.filter (fun g => strStartsWith (f ++ "/") g)) with
          | error e => rw [hloop] at h; simp at h
          | ok pair =>
            obtain ⟨zb, evs⟩ := pair
            rw [hloop] at h
            simp only [Except.ok.injEq, Prod.mk.injEq] at h
            obtain ⟨rfl, rfl⟩ := h
            obtain ⟨surv, evprop⟩ :=
              depsLoop_ok fuel r (fun za fa z2a tra => IH za fa r z2a tra) _ _ _ _ hloop
            constructor
            · intro g hg
              obtain ⟨hg1, hdeps⟩ := surv g hg
              have hg2 : g ∈ (rmDataTree z f).fsRoots.filter (fun g2 => g2 ≠ f) := by
                simpa [rmRootFs] using hg1
              rw [rmDataTree_fsRoots] at hg2
              rw [List.mem_filter] at hg2
              obtain ⟨hgz, hgf⟩ := hg2
              have hgf2 : g ≠ f := by simpa using hgf
              refine ⟨hgz, hgf2, ?_⟩
              by_contra hcon
              simp only [Bool.not_eq_false] at hcon
              have : g ∈ z.fsRoots.filter (fun g2 => strStartsWith (f ++ "/") g2) :=
                List.mem_filter.mpr ⟨hgz, hcon⟩
              exact hdeps g this rfl
            · refine ⟨evs, by rw [if_pos hmp], ?_⟩
              intro e he
              obtain ⟨d, hd, hc⟩ := evprop e he
              have hdpref : strStartsWith (f ++ "/") d = true :=
                (List.mem_filter.mp hd).2
              rcases hc with h1 | h2
              · rw [h1]; exact hdpref
              · exact startsWith_trans f d (evName e) hdpref h2
      · rw [if_neg hmp] at h
        simp only at h
        by_cases hroot : z.fsRoots.contains f = false
        · rw [if_pos hroot] at h; simp at h
        · rw [if_neg hroot] at h
          cases hloop : depsLoop (fun z2 d => destroyFsGo fuel z2 d r)
              (rmRootFs z f)
              (z.fsRoots.filter (fun g => strStartsWith (f ++ "/") g)) with
          | error e => rw [hloop] at h; simp at h
          | ok pair =>
            obtain ⟨zb, evs⟩ := pair
            rw [hloop] at h
            simp only [Except.ok.injEq, Prod.mk.injEq] at h
            obtain ⟨rfl, rfl⟩ := h
            obtain ⟨surv, evprop⟩ :=
              depsLoop_ok fuel r (fun za fa z2a tra => IH za fa r z2a tra) _ _ _ _ hloop
            constructor
            · intro g hg
              obtain ⟨hg1, hdeps⟩ := surv g hg
              have hg2 : g ∈ z.fsRoots.filter (fun g2 => g2 ≠ f) := by
                simpa [rmRootFs] using hg1
              rw [List.mem_filter] at hg2
              obtain ⟨hgz, hgf⟩ := hg2
              have hgf2 : g ≠ f := by simpa using hgf
              refine ⟨hgz, hgf2, ?_⟩
              by_contra hcon
              simp only [Bool.not_eq_false] at hcon
              have : g ∈ z.fsRoots.filter (fun g2 => strStartsWith (f ++ "/") g2) :=
                List.mem_filter.mpr ⟨hgz, hcon⟩
              exact hdeps g this rfl
            · refine ⟨evs, by rw [if_neg hmp], ?_⟩
              intro e he
              obtain ⟨d, hd, hc⟩ := evprop e he
              have hdpref : strStartsWith (f ++ "/") d = true :=
                (List.mem_filter.mp hd).2
              rcases hc with h1 | h2
              · rw [h1]; exact hdpref
              · exact startsWith_trans f d (evName e) hdpref h2

/-- **C2** (amended). For every recursive destroy that completes without
raising, the trace removes the filesystem's *own* subtree first (its data,
when present, then its metadata root), and only then events for strict
descendants (pre-order, not post-order); afterwards neither the filesystem
nor any of its descendants exists. -/
theorem destroy_recursive_amended (z : ZState) (f : String) (z2 : ZState) (tr : List DEv)
    (h : destroyFs z f true = .ok (z2, tr)) :
    (∃ rest, tr = (if mountpointIsPresent z f then [DEv.rmData f] else [])
        ++ DEv.rmRoot f :: rest ∧
        ∀ e ∈ rest, strStartsWith (f ++ "/") (evName e) = true) ∧
    f ∉ z2.fsRoots ∧
    (∀ g, strStartsWith (f ++ "/") g = true → g ∉ z2.fsRoots) := by
  obtain ⟨surv, trace⟩ := destroyFsGo_ok (z.fsRoots.length + 1) z f true z2 tr h
  refine ⟨trace, ?_, ?_⟩
  · intro hf
    exact (surv f hf).2.1 rfl
  · intro g hg hmem
    rw [(surv g hmem).2.2] at hg
    simp at hg

/-- Witness for the amended C2 at the concrete state `c2Z`. -/
theorem destroy_recursive_amended_witness :
    ∃ z2 tr, destroyFs c2Z "p/a" true = .ok (z2, tr) ∧
      "p/a" ∉ z2.fsRoots ∧
      ∀ g, strStartsWith ("p/a" ++ "/") g = true → g ∉ z2.fsRoots :=
  ⟨_, _, rfl,
    (destroy_recursive_amended c2Z "p/a" _ _ rfl).2.1,
    (destroy_recursive_amended c2Z "p/a" _ _ rfl).2.2⟩

/-! ## File-tree path lemmas (used by C4/C5) -/

theorem lookup_assocSet_self {α : Type} (l : List (String × α)) (n : String) (t : α) :
    (assocSet l n t).lookup n = some t := by
  induction l with
  | nil => simp [assocSet, List.lookup]
  | cons kv rest ih =>
    obtain ⟨k, v⟩ := kv
    by_cases hk : k = n
    · subst hk
      simp [assocSet, List.lookup]
    · have hbeq : (n == k) = false := by simp [Ne.symm hk]
      simp [assocSet, hk, List.lookup, hbeq, ih]

theorem lookup_assocSet_other {α : Type} (l : List (String × α)) (n m : String) (t : α)
    (h : m ≠ n) : (assocSet l n t).lookup m = l.lookup m := by
  have hbeq0 : (m == n) = false := by simp [h]
  induction l with
  | nil => simp [assocSet, List.lookup, hbeq0]
  | cons kv rest ih =>
    obtain ⟨k, v⟩ := kv
    by_cases hk : k = n
    · subst hk
      have hbeq : (m == k) = false := by simp [h]
      simp [assocSet, List.lookup, hbeq]
    · by_cases hm : m = k
      · subst hm
        simp [assocSet, hk, List.lookup]
      · have hbeq : (m == k) = false := by simp [hm]
        simp [assocSet, hk, List.lookup, hbeq, ih]

theorem lookupPath_emptyDir (p : List String) (hp : p ≠ []) :
    lookupPath p (.dir []) = none := by
  cases p with
  | nil => exact absurd rfl hp
  | cons n rest => simp [lookupPath, List.lookup]

/-- A modification along a path `c ++ a :: p'` does not change lookups along
a path that diverges at `a ≠ b` — `mkdirAt` version. -/
theorem lookupPath_mkdirAt_diverge (c : List String) (a b : String)
    (p2 q2 : List String) (base : FileTree) (hab : a ≠ b) :
    lookupPath (c ++ b :: q2) (mkdirAt (c ++ a :: p2) base)
      = lookupPath (c ++ b :: q2) base := by
  induction c generalizing base with
  | nil =>
    cases base with
    | file cnt => simp [mkdirAt, lookupPath]
    | dir cs =>
      simp only [List.nil_append, mkdirAt, lookupPath]
      cases h : cs.lookup a with
      | some child =>
        simp only [lookupPath]
        rw [lookup_assocSet_other cs a b _ (Ne.symm hab)]
      | none =>
        simp only [lookupPath]
        rw [lookup_append]
        have hbeq : (b == a) = false := by simp [Ne.symm hab]
        cases hb : cs.lookup b with
        | some x => simp
        | none => simp [List.lookup, hbeq]
  | cons x c2 ih =>
    cases base with
    | file cnt => simp [mkdirAt, lookupPath]
    | dir cs =>
      simp only [List.cons_append, mkdirAt, lookupPath]
      cases h : cs.lookup x with
      | some child =>
        simp only [lookupPath]
        rw [lookup_assocSet_self]
        exact ih child
      | none =>
        simp only [lookupPath]
        rw [lookup_append]
        cases hb : cs.lookup x with
        | some y => simp_all
        | none =>
          have hbeq : (x == x) = true := by simp
          simp only [List.lookup, hbeq]
          have h2 := ih (FileTree.dir [])
          simp only [List.append_eq] at h2 ⊢
          rw [h2, lookupPath_emptyDir _ (by simp)]

/-- Divergent-path preservation for `removeAt`. -/
theorem lookupPath_removeAt_diverge (c : List String) (a b : String)
    (p2 q2 : List String) (base : FileTree) (hab : a ≠ b) :
    lookupPath (c ++ b :: q2) (removeAt (c ++ a :: p2) base)
      = lookupPath (c ++ b :: q2) base := by
  induction c generalizing base with
  | nil =>
    cases base with
    | file cnt => cases p2 <;> simp [removeAt, lookupPath]
    | dir cs =>
      cases p2 with
      | nil =>
        simp only [List.nil_append, removeAt, lookupPath]
        rw [lookup_filterkey cs (fun k => k ≠ a) b]
        simp [Ne.symm hab]
      | cons m p3 =>
        simp only [List.nil_append, removeAt, lookupPath]
        cases h : cs.lookup a with
        | some child =>
          simp only [lookupPath]
          rw [lookup_assocSet_other cs a b _ (Ne.symm hab)]
        | none => simp [lookupPath]
  | cons x c2 ih =>
    cases base with
    | file cnt => simp [removeAt, lookupPath]
    | dir cs =>
      have hxc : (x :: (c2 ++ a :: p2)) = ((x :: c2) ++ a :: p2) := by simp
      simp only [List.cons_append, lookupPath]
      cases hcx : c2 ++ a :: p2 with
      | nil => simp at hcx
      | cons y rest =>
        simp only [removeAt, ← hcx]
        cases h : cs.lookup x with
        | some child =>
          simp only [lookupPath]
          rw [lookup_assocSet_self]
          exact ih child
        | none => simp [lookupPath, h]

/-- Divergent-path preservation for `graftAt`. -/
theorem lookupPath_graftAt_diverge (c : List String) (a b : String)
    (p2 q2 : List String) (sub base : FileTree) (hab : a ≠ b) :
    lookupPath (c ++ b :: q2) (graftAt (c ++ a :: p2) sub base)
      = lookupPath (c ++ b :: q2) base := by
  induction c generalizing base with
  | nil =>
    cases base with
    | file cnt => cases p2 <;> simp [graftAt, lookupPath]
    | dir cs =>
      cases p2 with
      | nil =>
        simp only [List.nil_append, graftAt, lookupPath]
        rw [lookup_assocSet_other cs a b _ (Ne.symm hab)]
      | cons m p3 =>
        simp only [List.nil_append, graftAt, lookupPath]
        cases h : cs.lookup a with
        | some child =>
          simp only [lookupPath]
          rw [lookup_assocSet_other cs a b _ (Ne.symm hab)]
        | none =>
          simp only [lookupPath]
          rw [lookup_append]
          have hbeq : (b == a) = false := by simp [Ne.symm hab]
          cases hb : cs.lookup b with
          | some x => simp
          | none => simp [List.lookup, hbeq]
  | cons x c2 ih =>
    cases base with
    | file cnt => simp [graftAt, lookupPath]
    | dir cs =>
      simp only [List.cons_append, lookupPath]
      cases hcx : c2 ++ a :: p2 with
      | nil => simp at hcx
      | cons y rest =>
        simp only [graftAt, ← hcx]
        cases h : cs.lookup x with
        | some child =>
          simp only [lookupPath]
          rw [lookup_assocSet_self]
          exact ih child
        | none =>
          simp only [lookupPath]
          rw [lookup_append]
          cases hb : cs.lookup x with
          | some y2 => simp_all
          | none =>
            have hbeq : (x == x) = true := by simp
            simp only [List.lookup, hbeq]
            rw [ih (.dir [])]
            rw [lookupPath_emptyDir _ (by simp)]

/-- After removing the subtree at `p` the lookup there is gone. -/
theorem lookupPath_removeAt_self (p : List String) (t x : FileTree)
    (hp : p ≠ []) (h : lookupPath p t = some x) :
    lookupPath p (removeAt p t) = none := by
  induction p generalizing t with
  | nil => exact absurd rfl hp
  | cons n p2 ih =>
    cases t with
    | file cnt => simp [lookupPath] at h
    | dir cs =>
      cases p2 with
      | nil =>
        simp only [removeAt, lookupPath]
        rw [lookup_filterkey cs (fun k => k ≠ n) n]
        simp
      | cons m p3 =>
        simp only [lookupPath] at h
        cases hc : cs.lookup n with
        | none => rw [hc] at h; simp at h
        | some child =>
          rw [hc] at h
          simp only at h
          simp only [removeAt, hc, lookupPath]
          rw [lookup_assocSet_self]
          exact ih child (by simp) h

/-- No file blocks the path: every existing entry along it is a directory. -/
def dirsAlong : List String → FileTree → Bool
  | [], _ => true
  | _ :: _, .file _ => false
  | n :: p, .dir cs =>
    match cs.lookup n with
    | some child => dirsAlong p child
    | none => true

theorem dirsAlong_emptyDir (p : List String) : dirsAlong p (.dir []) = true := by
  cases p with
  | nil => rfl
  | cons n rest => simp [dirsAlong, List.lookup]

/-- Grafting at an unblocked path makes the subtree retrievable there. -/
theorem lookupPath_graftAt_self (p : List String) (sub base : FileTree)
    (h : dirsAlong p base = true) :
    lookupPath p (graftAt p sub base) = some sub := by
  induction p generalizing base with
  | nil => simp [graftAt, lookupPath]
  | cons n p2 ih =>
    cases base with
    | file cnt => simp [dirsAlong] at h
    | dir cs =>
      simp only [dirsAlong] at h
      cases hc : cs.lookup n with
      | some child =>
        rw [hc] at h
        simp only at h
        cases p2 with
        | nil =>
          simp only [graftAt, lookupPath]
          rw [lookup_assocSet_self]
        | cons m p3 =>
          simp only [graftAt, hc, lookupPath]
          rw [lookup_assocSet_self]
          exact ih child h
      | none =>
        cases p2 with
        | nil =>
          simp only [graftAt, lookupPath]
          rw [lookup_assocSet_self]
        | cons m p3 =>
          simp only [graftAt, hc, lookupPath]
          rw [lookup_append, hc]
          have hbeq : (n == n) = true := by simp
          simp only [List.lookup, hbeq]
          exact ih (.dir []) (dirsAlong_emptyDir _)

/-- Removing the subtree at `p` leaves the path itself unblocked. -/
theorem dirsAlong_removeAt_self (p : List String) (t x : FileTree)
    (h : lookupPath p t = some x) :
    dirsAlong p (removeAt p t) = true := by
  induction p generalizing t with
  | nil => rfl
  | cons n p2 ih =>
    cases t with
    | file cnt => simp [lookupPath] at h
    | dir cs =>
      simp only [lookupPath] at h
      cases hc : cs.lookup n with
      | none => rw [hc] at h; simp at h
      | some child =>
        rw [hc] at h
        simp only at h
        cases p2 with
        | nil =>
          simp only [removeAt, dirsAlong]
          rw [lookup_filterkey cs (fun k => k ≠ n) n]
          simp
        | cons m p3 =>
          simp only [removeAt, hc, dirsAlong]
          rw [lookup_assocSet_self]
          exact ih child h

/-- Divergent-path preservation for `dirsAlong` under `removeAt`. -/
theorem dirsAlong_removeAt_diverge (c : List String) (a b : String)
    (p2 q2 : List String) (base : FileTree) (hab : a ≠ b) :
    dirsAlong (c ++ b :: q2) (removeAt (c ++ a :: p2) base)
      = dirsAlong (c ++ b :: q2) base := by
  induction c generalizing base with
  | nil =>
    cases base with
    | file cnt => cases p2 <;> simp [removeAt, dirsAlong]
    | dir cs =>
      cases p2 with
      | nil =>
        simp only [List.nil_append, removeAt, dirsAlong]
        rw [lookup_filterkey cs (fun k => k ≠ a) b]
        simp [Ne.symm hab]
      | cons m p3 =>
        cases h : cs.lookup a with
        | some child =>
          simp only [List.nil_append, removeAt, h, dirsAlong]
          rw [lookup_assocSet_other cs a b _ (Ne.symm hab)]
        | none => simp only [List.nil_append, removeAt, h, dirsAlong]
  | cons x c2 ih =>
    cases base with
    | file cnt => simp [removeAt, dirsAlong]
    | dir cs =>
      cases hcx : c2 ++ a :: p2 with
      | nil => simp at hcx
      | cons y rest =>
        have hx2 : (x :: c2) ++ a :: p2 = x :: y :: rest := by
          rw [List.cons_append, hcx]
        rw [hx2]
        cases h : cs.lookup x with
        | some child =>
          simp only [removeAt, h, dirsAlong, List.cons_append]
          rw [lookup_assocSet_self]
          rw [← hcx]
          exact ih child
        | none => simp only [removeAt, h, dirsAlong, List.cons_append]

/-! ## C4: `zfs.rename` -/

/-- `Snapshot.rename`: `os.rename(self.root, new_snapshot.root)` — the
snapshot directory moves within the same filesystem. -/
def snapRename (z : ZState) (f s1 s2 : String) : ZState :=
  { z with
      snapRoots := z.snapRoots.map (fun q => if q = (f, s1) then (f, s2) else q)
      snapData := fun f2 sx =>
        if f2 = f ∧ sx = s2 then z.snapData f s1
        else if f2 = f ∧ sx = s1 then none else z.snapData f2 sx
      snapProps := fun f2 sx =>
        if f2 = f ∧ sx = s2 then z.snapProps f s1
        else if f2 = f ∧ sx = s1 then none else z.snapProps f2 sx }

/-- Place a subtree at a filesystem's data location in its pool's backing
storage (the effect of a `shutil.move`/`shutil.copytree` destination). -/
def graftDataSubtree (z : ZState) (f : String) (t : FileTree) : ZState :=
  match poollessComponents f with
  | [] => { z with poolData := fun p => if p = poolOf f then some t else z.poolData p }
  | comps =>
    { z with poolData := fun p =>
        if p = poolOf f then (z.poolData p).map (graftAt comps t) else z.poolData p }

/-- `os.makedirs(os.path.join(new_dataset.root, target))` as performed by
`Filesystem.create`/`Filesystem.rename`: creates the metadata root and the
data directories along the poolless path, swallowing already-exists errors. -/
def ensureRootAndData (z : ZState) (n : String) : ZState :=
  { z with
      fsRoots := if z.fsRoots.contains n then z.fsRoots else z.fsRoots ++ [n]
      poolData := fun p =>
        if p = poolOf n then (z.poolData p).map (mkdirAt (poollessComponents n))
        else z.poolData p }

/-- `shutil.move(self.properties, new_dataset.root)`: the property directory
moves from the old root to the new one. -/
def renameMoveProps (z : ZState) (n1 n2 : String) (props : List (String × String)) :
    ZState :=
  { z with
      fsProps := fun g =>
        if g = n2 then some props else if g = n1 then none else z.fsProps g }

/-- `shutil.move(self.snapshots, new_dataset.root)`: every snapshot of the
old filesystem is now a snapshot of the new one. -/
def renameMoveSnapshots (z : ZState) (n1 n2 : String) : ZState :=
  { z with
      snapRoots := z.snapRoots.map (fun q => if q.1 = n1 then (n2, q.2) else q)
      snapData := fun f2 s2 =>
        if f2 = n2 then z.snapData n1 s2
        else if f2 = n1 then none else z.snapData f2 s2
      snapProps := fun f2 s2 =>
        if f2 = n2 then z.snapProps n1 s2
        else if f2 = n1 then none else z.snapProps f2 s2 }

/-- `Filesystem.rename` (dataset.py:470-491): re-create the relative data
symlink target under the new root (`os.makedirs`, errors swallowed), link,
`os.rmdir` the (empty) new data directory, `shutil.move` the old data into
place, move the `properties` and `snapshots` directories, then
`self.destroy()` the old (now-empty) shell — which raises has-children when
descendants exist, and lists dependents against the live state. -/
def fsRename (z : ZState) (n1 n2 : String) : Except ZErr ZState :=
  let z1 : ZState := ensureRootAndData z n2
  -- os.rmdir(new_dataset.mountpoint): must be an empty directory.
  match z1.poolData (poolOf n2) with
  | none => .error .rmdirFailed
  | some pd2 =>
    match lookupPath (poollessComponents n2) pd2 with
    | some (.dir []) =>
      let z3 : ZState := rmDataTree z1 n2
      -- shutil.move(self.mountpoint, new_dataset.mountpoint): os.rename
      -- refuses to move a directory into itself, else move the subtree.
      if (poollessComponents n1).isPrefixOf (poollessComponents n2) then
        .error .moveIntoItself
      else
        match z3.poolData (poolOf n1) with
        | none => .error .moveMissing
        | some pd1 =>
          match lookupPath (poollessComponents n1) pd1 with
          | none => .error .moveMissing
          | some t =>
            let z4 : ZState := graftDataSubtree (rmDataTree z3 n1) n2 t
            -- shutil.move(self.properties, new_dataset.root)
            match z4.fsProps n1 with
            | none => .error .moveMissing
            | some props =>
              if (z4.fsProps n2).isSome then .error .moveDestExists
              else
                let z6 : ZState :=
                  renameMoveSnapshots (renameMoveProps z4 n1 n2 props) n1 n2
                -- self.destroy()
                match destroyFs z6 n1 false with
                | .error e => .error e
                | .ok (z7, _) => .ok z7
    | _ => .error .rmdirFailed

/-- `zfs.rename`: resolve the source; for a snapshot source, qualify a bare
target with the source's filesystem, re-resolve as a must-not-exist snapshot
and require the same filesystem; for a filesystem source, resolve the target
as a must-not-exist filesystem and require the same pool; then delegate. -/
def renameOp (z : ZState) (identifier otherIdentifier : String) : Except ZErr ZState :=
  match getDatasetBy z identifier with
  | .error e => .error e
  | .ok (.snap f s) =>
    let other2 :=
      if (otherIdentifier.data.contains '@') = false
      then f ++ "@" ++ otherIdentifier else otherIdentifier
    match getDatasetBy z other2 (some .snapshotK) (some false) with
    | .error e => .error e
    | .ok (.fs _) => .error .notASnapshot
    | .ok (.snap f2 s2) =>
      if f ≠ f2 then .error .mismatchedFilesystems
      else .ok (snapRename z f s s2)
  | .ok (.fs n1) =>
    match getDatasetBy z otherIdentifier (some .filesystemK) (some false) with
    | .error e => .error e
    | .ok (.snap _ _) => .error .notAFilesystem
    | .ok (.fs n2) =>
      if poolOf n1 ≠ poolOf n2 then .error .differentPools
      else fsRename z n1 n2

/-- A non-recursive destroy with no live descendants, no resolvable data
directory, and a present metadata root removes exactly the root. -/
theorem destroyFs_no_children (z : ZState) (f : String)
    (hdeps : z.fsRoots.filter (fun g => strStartsWith (f ++ "/") g) = [])
    (hmp : mountpointIsPresent z f = false)
    (hcont : z.fsRoots.contains f = true) :
    destroyFs z f false = .ok (rmRootFs z f, [DEv.rmRoot f]) := by
  unfold destroyFs
  have hmem : f ∈ z.fsRoots := by simpa using hcont
  simp only [destroyFsGo, hdeps, hmp, hcont, depsLoop]
  simp [hmem]

/-- A non-recursive destroy with live descendants raises has-children. -/
theorem destroyFs_children_error (z : ZState) (f : String)
    (hdeps : z.fsRoots.filter (fun g => strStartsWith (f ++ "/") g) ≠ []) :
    destroyFs z f false = .error .hasChildren := by
  unfold destroyFs
  simp only [destroyFsGo]
  rw [if_pos ⟨hdeps, trivial⟩]

theorem rmDataTree_poolData (z : ZState) (f : String) (hd : String) (tl : List String)
    (hc : poollessComponents f = hd :: tl) (p : String) :
    (rmDataTree z f).poolData p =
      (if p = poolOf f then (z.poolData p).map (removeAt (poollessComponents f))
       else z.poolData p) := by
  unfold rmDataTree
  rw [hc]

theorem rmDataTree_rest (z : ZState) (f : String) :
    (rmDataTree z f).fsProps = z.fsProps ∧
    (rmDataTree z f).snapRoots = z.snapRoots ∧
    (rmDataTree z f).snapData = z.snapData ∧
    (rmDataTree z f).snapProps = z.snapProps ∧
    (rmDataTree z f).pools = z.pools := by
  unfold rmDataTree
  split <;> exact ⟨rfl, rfl, rfl, rfl, rfl⟩

theorem graftDataSubtree_poolData (z : ZState) (f : String) (t : FileTree)
    (hd : String) (tl : List String)
    (hc : poollessComponents f = hd :: tl) (p : String) :
    (graftDataSubtree z f t).poolData p =
      (if p = poolOf f then (z.poolData p).map (graftAt (poollessComponents f) t)
       else z.poolData p) := by
  unfold graftDataSubtree
  rw [hc]

theorem graftDataSubtree_rest (z : ZState) (f : String) (t : FileTree) :
    (graftDataSubtree z f t).fsRoots = z.fsRoots ∧
    (graftDataSubtree z f t).fsProps = z.fsProps ∧
    (graftDataSubtree z f t).snapRoots = z.snapRoots ∧
    (graftDataSubtree z f t).snapData = z.snapData ∧
    (graftDataSubtree z f t).snapProps = z.snapProps := by
  unfold graftDataSubtree
  split <;> exact ⟨rfl, rfl, rfl, rfl, rfl⟩

/-- **C4** (confirmed). Rename preserves identity of content: when
`zfs.rename` of filesystem `n1` to `n2` (same pool, `n2` not previously
existing, data paths diverging) succeeds, `n2` carries exactly `n1`'s local
property directory, `n1`'s data subtree is found byte-for-byte at `n2`'s
data location, every snapshot of `n1` is a snapshot of `n2` (with identical
data and properties), and `n1` no longer exists while `n2` does. -/
theorem rename_preserves_content (z : ZState) (id1 id2 n1 n2 : String)
    (c : List String) (a b : String) (ptl qtl : List String)
    (pd t : FileTree) (z2 : ZState)
    (hparse1 : parseDatasetId id1 none = .ok (.fs n1))
    (hparse2 : parseDatasetId id2 (some .filesystemK) = .ok (.fs n2))
    (hdiv1 : poollessComponents n1 = c ++ a :: ptl)
    (hdiv2 : poollessComponents n2 = c ++ b :: qtl)
    (hab : a ≠ b)
    (hfresh : ∀ s, (n2, s) ∉ z.snapRoots)
    (hpd : z.poolData (poolOf n1) = some pd)
    (hlook : lookupPath (poollessComponents n1) pd = some t)
    (h : renameOp z id1 id2 = .ok z2) :
    z2.fsProps n2 = z.fsProps n1 ∧
    (∃ pd2, z2.poolData (poolOf n2) = some pd2 ∧
      lookupPath (poollessComponents n2) pd2 = some t) ∧
    (∀ s, ((n2, s) ∈ z2.snapRoots ↔ (n1, s) ∈ z.snapRoots)) ∧
    (∀ s, z2.snapData n2 s = z.snapData n1 s) ∧
    (∀ s, z2.snapProps n2 s = z.snapProps n1 s) ∧
    n1 ∉ z2.fsRoots ∧ n2 ∈ z2.fsRoots := by
  obtain ⟨hd1, tl1, hc1⟩ : ∃ hd tl, poollessComponents n1 = hd :: tl := by
    rw [hdiv1]
    cases c with
    | nil => exact ⟨a, ptl, rfl⟩
    | cons c0 cr => exact ⟨c0, cr ++ a :: ptl, rfl⟩
  obtain ⟨hd2, tl2, hc2⟩ : ∃ hd tl, poollessComponents n2 = hd :: tl := by
    rw [hdiv2]
    cases c with
    | nil => exact ⟨b, qtl, rfl⟩
    | cons c0 cr => exact ⟨c0, cr ++ b :: qtl, rfl⟩
  simp only [renameOp] at h
  have hex1 : dsExists z (.fs n1) = true := by
    by_contra hx
    have hx2 : dsExists z (.fs n1) = false := by
      cases hy : dsExists z (.fs n1) with
      | true => exact absurd hy hx
      | false => rfl
    have hg1 : getDatasetBy z id1 none (some true) = .error .noSuchDataset := by
      unfold getDatasetBy
      rw [hparse1]
      simp [hx2]
    rw [hg1] at h
    simp at h
  have hpool1 : z.pools.contains (poolOf n1) = true := by
    by_contra hx
    have hx2 : z.pools.contains (poolOf n1) = false := by
      cases hy : z.pools.contains (poolOf n1) with
      | true => exact absurd hy hx
      | false => rfl
    have hx3 : poolOf n1 ∉ z.pools := by simpa using hx2
    have hg1 : getDatasetBy z id1 none (some true) = .error .noSuchPool := by
      unfold getDatasetBy
      rw [hparse1]
      simp [hex1, dsPool, hx3]
    rw [hg1] at h
    simp at h
  have hg1 : getDatasetBy z id1 none (some true) = .ok (.fs n1) := by
    have hmem1 : poolOf n1 ∈ z.pools := by simpa using hpool1
    unfold getDatasetBy
    rw [hparse1]
    simp [hex1, dsPool, hmem1]
  rw [hg1] at h
  simp only [] at h
  have hex2 : dsExists z (.fs n2) = false := by
    by_contra hx
    have hx2 : dsExists z (.fs n2) = true := by
      cases hy : dsExists z (.fs n2) with
      | true => rfl
      | false => exact absurd hy hx
    have hg2 : getDatasetBy z id2 (some .filesystemK) (some false)
        = .error .datasetExists := by
      unfold getDatasetBy
      rw [hparse2]
      simp [hx2]
    rw [hg2] at h
    simp at h
  have hpool2 : z.pools.contains (poolOf n2) = true := by
    by_contra hx
    have hx2 : z.pools.contains (poolOf n2) = false := by
      cases hy : z.pools.contains (poolOf n2) with
      | true => exact absurd hy hx
      | false => rfl
    have hx3 : poolOf n2 ∉ z.pools := by simpa using hx2
    have hg2 : getDatasetBy z id2 (some .filesystemK) (some false)
        = .error .noSuchPool := by
      unfold getDatasetBy
      rw [hparse2]
      simp [hex2, dsPool, hx3]
    rw [hg2] at h
    simp at h
  have hg2 : getDatasetBy z id2 (some .filesystemK) (some false) = .ok (.fs n2) := by
    have hmem2 : poolOf n2 ∈ z.pools := by simpa using hpool2
    unfold getDatasetBy
    rw [hparse2]
    simp [hex2, dsPool, hmem2]
  rw [hg2] at h
  simp only [] at h
  have heq : poolOf n1 = poolOf n2 := by
    by_contra hx
    rw [if_pos hx] at h
    simp at h
  rw [if_neg (by simp [heq])] at h
  have hne12 : n1 ≠ n2 := by
    intro hx
    rw [hx] at hex1
    rw [hex1] at hex2
    simp at hex2
  have hne21 : n2 ≠ n1 := Ne.symm hne12
  have hcont2 : z.fsRoots.contains n2 = false := hex2
  have hcont1 : z.fsRoots.contains n1 = true := hex1
  -- h : fsRename z n1 n2 = .ok z2
  simp only [fsRename] at h
  have hz1pd : (ensureRootAndData z n2).poolData (poolOf n2)
      = some (mkdirAt (poollessComponents n2) pd) := by
    unfold ensureRootAndData
    dsimp only
    rw [if_pos rfl, ← heq, hpd]
    rfl
  rw [hz1pd] at h
  simp only [] at h
  cases hrm : lookupPath (poollessComponents n2)
      (mkdirAt (poollessComponents n2) pd) with
  | none => rw [hrm] at h; simp at h
  | some ft =>
  cases ft with
  | file cnt => rw [hrm] at h; simp at h
  | dir cs =>
  cases cs with
  | cons e0 es => rw [hrm] at h; simp at h
  | nil =>
  rw [hrm] at h
  simp only [] at h
  have hpref : ((poollessComponents n1).isPrefixOf (poollessComponents n2)) = false := by
    rw [hdiv1, hdiv2, Bool.eq_false_iff]
    intro hx
    have hx2 := List.isPrefixOf_iff_prefix.mp hx
    rw [List.prefix_append_right_inj, List.cons_prefix_cons] at hx2
    exact hab hx2.1
  rw [hpref] at h
  simp only [Bool.false_eq_true, if_false] at h
  have hz3pd : (rmDataTree (ensureRootAndData z n2) n2).poolData (poolOf n1)
      = some (removeAt (poollessComponents n2)
          (mkdirAt (poollessComponents n2) pd)) := by
    rw [rmDataTree_poolData _ _ hd2 tl2 hc2 (poolOf n1)]
    rw [if_pos heq, heq, hz1pd]
    rfl
  rw [hz3pd] at h
  simp only [] at h
  have hlook3 : lookupPath (poollessComponents n1)
      (removeAt (poollessComponents n2)
        (mkdirAt (poollessComponents n2) pd)) = some t := by
    rw [hdiv1, hdiv2]
    rw [lookupPath_removeAt_diverge c b a qtl ptl _ (Ne.symm hab)]
    rw [lookupPath_mkdirAt_diverge c b a qtl ptl pd (Ne.symm hab)]
    rw [← hdiv1]
    exact hlook
  rw [hlook3] at h
  simp only [] at h
  set z4 : ZState :=
    graftDataSubtree (rmDataTree (rmDataTree (ensureRootAndData z n2) n2) n1) n2 t
    with hz4def
  have hz4props : ∀ g, z4.fsProps g = z.fsProps g := by
    intro g
    rw [hz4def]
    rw [(graftDataSubtree_rest _ _ _).2.1]
    rw [(rmDataTree_rest _ _).1]
    rw [(rmDataTree_rest _ _).1]
    rfl
  rw [hz4props n1] at h
  obtain ⟨props, hprops⟩ : ∃ props, z.fsProps n1 = some props := by
    cases hy : z.fsProps n1 with
    | none => rw [hy] at h; simp at h
    | some q => exact ⟨q, rfl⟩
  rw [hprops] at h
  simp only [] at h
  rw [hz4props n2] at h
  have hfp2 : (z.fsProps n2).isSome = false := by
    by_contra hx
    have hx2 : (z.fsProps n2).isSome = true := by
      cases hy : (z.fsProps n2).isSome with
      | true => rfl
      | false => exact absurd hy hx
    rw [if_pos hx2] at h
    simp at h
  rw [hfp2] at h
  simp only [Bool.false_eq_true, if_false] at h
  set z6 : ZState := renameMoveSnapshots (renameMoveProps z4 n1 n2 props) n1 n2
    with hz6def
  have hz6roots : z6.fsRoots = z.fsRoots ++ [n2] := by
    rw [hz6def]
    show z4.fsRoots = _
    rw [hz4def]
    rw [(graftDataSubtree_rest _ _ _).1]
    rw [rmDataTree_fsRoots, rmDataTree_fsRoots]
    unfold ensureRootAndData
    dsimp only
    have hnmem : n2 ∉ z.fsRoots := by simpa using hcont2
    simp [hcont2, hnmem]
  have hz6pdN1 : z6.poolData (poolOf n1)
      = some (graftAt (poollessComponents n2) t
          (removeAt (poollessComponents n1)
            (removeAt (poollessComponents n2)
              (mkdirAt (poollessComponents n2) pd)))) := by
    rw [hz6def]
    show z4.poolData (poolOf n1) = _
    rw [hz4def]
    rw [graftDataSubtree_poolData _ _ _ hd2 tl2 hc2 (poolOf n1)]
    rw [if_pos heq]
    rw [rmDataTree_poolData _ _ hd1 tl1 hc1 (poolOf n1)]
    rw [if_pos rfl]
    rw [hz3pd]
    rfl
  have hlookgone : lookupPath (poollessComponents n1)
      (graftAt (poollessComponents n2) t
        (removeAt (poollessComponents n1)
          (removeAt (poollessComponents n2)
            (mkdirAt (poollessComponents n2) pd)))) = none := by
    rw [hdiv1, hdiv2]
    rw [lookupPath_graftAt_diverge c b a qtl ptl t _ (Ne.symm hab)]
    rw [← hdiv1, ← hdiv2]
    exact lookupPath_removeAt_self (poollessComponents n1) _ t
      (by rw [hc1]; simp) hlook3
  have hmp6 : mountpointIsPresent z6 n1 = false := by
    unfold mountpointIsPresent
    rw [hz6pdN1]
    simp only []
    rw [hlookgone]
    simp
  have hcont6 : z6.fsRoots.contains n1 = true := by
    rw [hz6roots]
    have hmem : n1 ∈ z.fsRoots := by simpa using hcont1
    simp [hmem]
  have hdeps6 : z6.fsRoots.filter (fun g => strStartsWith (n1 ++ "/") g) = [] := by
    by_contra hx
    rw [destroyFs_children_error z6 n1 hx] at h
    simp at h
  rw [destroyFs_no_children z6 n1 hdeps6 hmp6 hcont6] at h
  simp only [Except.ok.injEq] at h
  subst h
  -- compute the remaining projections
  have hfsp : (rmRootFs z6 n1).fsProps n2 = some props := by
    unfold rmRootFs
    dsimp only
    rw [if_neg hne21]
    rw [hz6def]
    show (renameMoveProps z4 n1 n2 props).fsProps n2 = _
    unfold renameMoveProps
    dsimp only
    rw [if_pos rfl]
  have hdirs : dirsAlong (poollessComponents n2)
      (removeAt (poollessComponents n1)
        (removeAt (poollessComponents n2)
          (mkdirAt (poollessComponents n2) pd))) = true := by
    rw [hdiv1, hdiv2]
    rw [dirsAlong_removeAt_diverge c a b ptl qtl _ hab]
    rw [← hdiv2]
    exact dirsAlong_removeAt_self _ _ _ hrm
  have hz6snaps : z6.snapRoots
      = z.snapRoots.map (fun q => if q.1 = n1 then (n2, q.2) else q) := by
    rw [hz6def]
    unfold renameMoveSnapshots
    dsimp only
    have hsr : (renameMoveProps z4 n1 n2 props).snapRoots = z.snapRoots := by
      show z4.snapRoots = z.snapRoots
      rw [hz4def]
      rw [(graftDataSubtree_rest _ _ _).2.2.1]
      rw [(rmDataTree_rest _ _).2.1]
      rw [(rmDataTree_rest _ _).2.1]
      rfl
    rw [hsr]
  have hz6sd : ∀ s, z6.snapData n2 s = z.snapData n1 s := by
    intro s
    rw [hz6def]
    unfold renameMoveSnapshots
    dsimp only
    rw [if_pos rfl]
    show z4.snapData n1 s = z.snapData n1 s
    rw [hz4def]
    rw [(graftDataSubtree_rest _ _ _).2.2.2.1]
    rw [(rmDataTree_rest _ _).2.2.1]
    rw [(rmDataTree_rest _ _).2.2.1]
    rfl
  have hz6sp : ∀ s, z6.snapProps n2 s = z.snapProps n1 s := by
    intro s
    rw [hz6def]
    unfold renameMoveSnapshots
    dsimp only
    rw [if_pos rfl]
    show z4.snapProps n1 s = z.snapProps n1 s
    rw [hz4def]
    rw [(graftDataSubtree_rest _ _ _).2.2.2.2]
    rw [(rmDataTree_rest _ _).2.2.2.1]
    rw [(rmDataTree_rest _ _).2.2.2.1]
    rfl
  refine ⟨?_, ?_, ?_, ?_, ?_, ?_, ?_⟩
  · rw [hfsp, hprops]
  · refine ⟨graftAt (poollessComponents n2) t
      (removeAt (poollessComponents n1)
        (removeAt (poollessComponents n2)
          (mkdirAt (poollessComponents n2) pd))), ?_, ?_⟩
    · show z6.poolData (poolOf n2) = _
      rw [heq] at hz6pdN1
      exact hz6pdN1
    · exact lookupPath_graftAt_self _ _ _ hdirs
  · intro s
    show (n2, s) ∈ (rmRootFs z6 n1).snapRoots ↔ _
    unfold rmRootFs
    dsimp only
    rw [hz6snaps]
    constructor
    · intro hmem
      rw [List.mem_filter] at hmem
      obtain ⟨hmem2, _⟩ := hmem
      rw [List.mem_map] at hmem2
      obtain ⟨q0, hq0, hq0eq⟩ := hmem2
      by_cases hq1 : q0.1 = n1
      · rw [if_pos hq1] at hq0eq
        have hs : q0.2 = s := by
          have := congrArg Prod.snd hq0eq
          simpa using this
        have hq0full : q0 = (n1, s) := by
          cases q0 with
          | mk qa qb =>
            simp only at hq1 hs
            rw [hq1, hs]
        rw [hq0full] at hq0
        exact hq0
      · rw [if_neg hq1] at hq0eq
        rw [hq0eq] at hq0
        exact absurd hq0 (hfresh s)
    · intro hmem
      rw [List.mem_filter]
      constructor
      · rw [List.mem_map]
        refine ⟨(n1, s), hmem, ?_⟩
        rw [if_pos rfl]
      · simp [hne21]
  · intro s
    show (rmRootFs z6 n1).snapData n2 s = _
    unfold rmRootFs
    dsimp only
    rw [if_neg hne21]
    exact hz6sd s
  · intro s
    show (rmRootFs z6 n1).snapProps n2 s = _
    unfold rmRootFs
    dsimp only
    rw [if_neg hne21]
    exact hz6sp s
  · show n1 ∉ (rmRootFs z6 n1).fsRoots
    unfold rmRootFs
    dsimp only
    intro hmem
    rw [List.mem_filter] at hmem
    simp at hmem
  · show n2 ∈ (rmRootFs z6 n1).fsRoots
    unfold rmRootFs
    dsimp only
    rw [List.mem_filter, hz6roots]
    constructor
    · simp
    · simp [hne21]

/-- Data payload of filesystem `p/a` in the C4 witness state. -/
def c4T : FileTree := .dir [("data.txt", .file "hello")]

/-- Concrete state for the C4 witness: pool `p`, filesystems `p` and `p/a`
(the latter with a local property, one snapshot `s1` and data `c4T`). -/
def c4Z : ZState :=
  { pools := ["p"]
    poolData := fun n => if n = "p" then some (.dir [("a", c4T)]) else none
    fsRoots := ["p", "p/a"]
    fsProps := fun g => if g = "p/a" then some [("k", "v")] else none
    snapRoots := [("p/a", "s1")]
    snapData := fun f s => if f = "p/a" ∧ s = "s1" then some (.file "snapbytes") else none
    snapProps := fun f s => if f = "p/a" ∧ s = "s1" then some [("k2", "v2")] else none }

/-- Witness for C4 at the concrete state `c4Z`: `zfs rename p/a p/b`
succeeds and transports the property directory, the data subtree and the
snapshot to `p/b`, removing `p/a`. -/
theorem rename_preserves_content_witness :
    ∃ z2, renameOp c4Z "p/a" "p/b" = .ok z2 ∧
      (z2.fsProps "p/b" = c4Z.fsProps "p/a" ∧
       (∃ pd2, z2.poolData (poolOf "p/b") = some pd2 ∧
         lookupPath (poollessComponents "p/b") pd2 = some c4T) ∧
       (∀ s, (("p/b", s) ∈ z2.snapRoots ↔ ("p/a", s) ∈ c4Z.snapRoots)) ∧
       (∀ s, z2.snapData "p/b" s = c4Z.snapData "p/a" s) ∧
       (∀ s, z2.snapProps "p/b" s = c4Z.snapProps "p/a" s) ∧
       "p/a" ∉ z2.fsRoots ∧ "p/b" ∈ z2.fsRoots) := by
  refine ⟨_, rfl, ?_⟩
  exact rename_preserves_content c4Z "p/a" "p/b" "p/a" "p/b" [] "a" "b" [] []
    (.dir [("a", c4T)]) c4T _ rfl rfl rfl rfl (by decide)
    (by
      intro s hs
      have hs2 : ("p/b", s) ∈ [(("p/a" : String), ("s1" : String))] := hs
      rw [List.mem_singleton] at hs2
      have hs3 : ("p/b" : String) = "p/a" := congrArg Prod.fst hs2
      exact absurd hs3 (by decide))
    rfl rfl rfl

/-! ## C5: the send/receive stream codec (`Snapshot.to_stream`, `zfs.receive`) -/

/-- No duplicate names in a directory listing (well-formedness of a tree
produced by an actual on-disk directory, where names are unique). -/
def namesFresh : List String → Bool
  | [] => true
  | n :: rest => (!rest.contains n) && namesFresh rest

/-! Modelled from the spec (claim C5): `tarfile.TarFile.add(root, arcname)`
writes one entry per file-system object, the directory entry first and then
its children in listing order; gzip is a transparent byte-level wrapper, so
the stream is modelled as the list of (relative path, payload) entries
(`none` = directory entry, `some c` = file with content `c`).  tar/gzip are
Python stdlib, not repository code. -/
mutual

def tarEntries (p : List String) : FileTree → List (List String × Option String)
  | .file c => [(p, some c)]
  | .dir cs => (p, none) :: tarChildren p cs

def tarChildren (p : List String) : List (String × FileTree) → List (List String × Option String)
  | [] => []
  | (nm, t) :: rest => tarEntries (p ++ [nm]) t ++ tarChildren p rest

end

/-! A tree with unique child names at every directory level — true of every
tree read from a real file system, and what `t.add` can actually produce. -/
mutual

def wfTree : FileTree → Bool
  | .file _ => true
  | .dir cs => namesFresh (cs.map Prod.fst) && wfChildren cs

def wfChildren : List (String × FileTree) → Bool
  | [] => true
  | (_, t) :: rest => wfTree t && wfChildren rest

end

/-- Modelled from the spec (claim C5): `tarfile.TarFile.extractall` replays
the entries in order, `os.makedirs`-style for directory entries and an
overwriting file write for file entries. -/
def insertEntry (t : FileTree) (e : List String × Option String) : FileTree :=
  match e.2 with
  | none => mkdirAt e.1 t
  | some c => writeFileAt e.1 c t

def rebuild (es : List (List String × Option String)) (t0 : FileTree) : FileTree :=
  es.foldl insertEntry t0

theorem rebuild_append (a b : List (List String × Option String)) (t0 : FileTree) :
    rebuild (a ++ b) t0 = rebuild b (rebuild a t0) := by
  unfold rebuild
  exact List.foldl_append _ _ _ _

theorem lookupPath_append (p q : List String) (b : FileTree) :
    lookupPath (p ++ q) b =
      (match lookupPath p b with
       | some t => lookupPath q t
       | none => none) := by
  induction p generalizing b with
  | nil => simp [lookupPath]
  | cons n p2 ih =>
    cases b with
    | file c => simp [lookupPath]
    | dir cs =>
      rw [List.cons_append]
      simp only [lookupPath]
      cases hl : cs.lookup n with
      | some child => exact ih child
      | none => rfl

theorem dirsAlong_of_lookupPath (p : List String) (b t : FileTree)
    (h : lookupPath p b = some t) : dirsAlong p b = true := by
  induction p generalizing b with
  | nil => rfl
  | cons n p2 ih =>
    cases b with
    | file c => simp [lookupPath] at h
    | dir cs =>
      simp only [lookupPath] at h
      cases hl : cs.lookup n with
      | some child =>
        rw [hl] at h
        simp only [dirsAlong, hl]
        exact ih child h
      | none => rw [hl] at h; simp at h

theorem assocSet_assocSet {α : Type} (l : List (String × α)) (n : String) (a b : α) :
    assocSet (assocSet l n a) n b = assocSet l n b := by
  induction l with
  | nil => simp [assocSet]
  | cons kv rest ih =>
    obtain ⟨k, v⟩ := kv
    by_cases hk : k = n
    · simp [assocSet, hk]
    · simp [assocSet, hk, ih]

theorem assocSet_of_lookup_none {α : Type} (l : List (String × α)) (n : String) (x : α)
    (h : l.lookup n = none) : assocSet l n x = l ++ [(n, x)] := by
  induction l with
  | nil => rfl
  | cons kv rest ih =>
    obtain ⟨k, v⟩ := kv
    by_cases hk : n = k
    · subst hk
      simp [List.lookup] at h
    · have hbeq : (n == k) = false := by simp [hk]
      simp only [List.lookup, hbeq] at h
      simp [assocSet, Ne.symm hk, ih h]

theorem assocSet_lookup_eq {α : Type} (l : List (String × α)) (n : String) (v : α)
    (h : l.lookup n = some v) : assocSet l n v = l := by
  induction l with
  | nil => simp [List.lookup] at h
  | cons kv rest ih =>
    obtain ⟨k, w⟩ := kv
    by_cases hk : n = k
    · subst hk
      have hbeq : (n == n) = true := by simp
      simp only [List.lookup, hbeq] at h
      simp only [Option.some.injEq] at h
      simp [assocSet, h]
    · have hbeq : (n == k) = false := by simp [hk]
      simp only [List.lookup, hbeq] at h
      simp [assocSet, Ne.symm hk, ih h]

theorem assocSet_append_last {α : Type} (l : List (String × α)) (n : String) (x y : α)
    (h : l.lookup n = none) : assocSet (l ++ [(n, x)]) n y = l ++ [(n, y)] := by
  induction l with
  | nil => simp [assocSet]
  | cons kv rest ih =>
    obtain ⟨k, v⟩ := kv
    by_cases hk : n = k
    · subst hk
      simp [List.lookup] at h
    · have hbeq : (n == k) = false := by simp [hk]
      simp only [List.lookup, hbeq] at h
      simp [assocSet, Ne.symm hk, ih h]

theorem mkdirAt_factor (p q : List String) (b sub : FileTree)
    (h : lookupPath p b = some sub) :
    mkdirAt (p ++ q) b = graftAt p (mkdirAt q sub) b := by
  induction p generalizing b with
  | nil =>
    simp only [lookupPath, Option.some.injEq] at h
    subst h
    simp [graftAt]
  | cons n p2 ih =>
    cases b with
    | file c => simp [lookupPath] at h
    | dir cs =>
      simp only [lookupPath] at h
      cases hl : cs.lookup n with
      | none => rw [hl] at h; simp at h
      | some child =>
        rw [hl] at h
        rw [List.cons_append]
        simp only [mkdirAt, hl]
        rw [ih child h]
        cases p2 with
        | nil => simp [graftAt, hl]
        | cons m p3 => simp [graftAt, hl]

theorem writeFileAt_factor (p q : List String) (c : String) (b sub : FileTree)
    (hq : q ≠ []) (h : lookupPath p b = some sub) :
    writeFileAt (p ++ q) c b = graftAt p (writeFileAt q c sub) b := by
  induction p generalizing b with
  | nil =>
    simp only [lookupPath, Option.some.injEq] at h
    subst h
    simp [graftAt]
  | cons n p2 ih =>
    cases b with
    | file cnt => simp [lookupPath] at h
    | dir cs =>
      simp only [lookupPath] at h
      cases hl : cs.lookup n with
      | none => rw [hl] at h; simp at h
      | some child =>
        rw [hl] at h
        rw [List.cons_append]
        cases p2 with
        | nil =>
          obtain ⟨m, rest, hmr⟩ : ∃ m rest, q = m :: rest := by
            cases q with
            | nil => exact absurd rfl hq
            | cons m rest => exact ⟨m, rest, rfl⟩
          subst hmr
          simp only [lookupPath, Option.some.injEq] at h
          subst h
          simp [writeFileAt, graftAt, hl]
        | cons m p3 =>
          have hsh : (m :: p3) ++ q = m :: (p3 ++ q) := List.cons_append m p3 q
          rw [hsh]
          simp only [writeFileAt, hl]
          rw [← hsh]
          rw [ih child h]
          simp [graftAt, hl]

theorem graftAt_factor (p q : List String) (s2 b sub : FileTree)
    (hq : q ≠ []) (h : lookupPath p b = some sub) :
    graftAt (p ++ q) s2 b = graftAt p (graftAt q s2 sub) b := by
  induction p generalizing b with
  | nil =>
    simp only [lookupPath, Option.some.injEq] at h
    subst h
    simp [graftAt]
  | cons n p2 ih =>
    cases b with
    | file cnt => simp [lookupPath] at h
    | dir cs =>
      simp only [lookupPath] at h
      cases hl : cs.lookup n with
      | none => rw [hl] at h; simp at h
      | some child =>
        rw [hl] at h
        rw [List.cons_append]
        cases p2 with
        | nil =>
          obtain ⟨m, rest, hmr⟩ : ∃ m rest, q = m :: rest := by
            cases q with
            | nil => exact absurd rfl hq
            | cons m rest => exact ⟨m, rest, rfl⟩
          subst hmr
          simp only [lookupPath, Option.some.injEq] at h
          subst h
          simp [graftAt, hl]
        | cons m p3 =>
          have hsh : (m :: p3) ++ q = m :: (p3 ++ q) := List.cons_append m p3 q
          rw [hsh]
          simp only [graftAt, hl]
          rw [← hsh]
          rw [ih child h]

theorem graftAt_graftAt (p : List String) (s1 s2 b sub : FileTree)
    (h : lookupPath p b = some sub) :
    graftAt p s2 (graftAt p s1 b) = graftAt p s2 b := by
  induction p generalizing b with
  | nil => rfl
  | cons n p2 ih =>
    cases b with
    | file c => simp [lookupPath] at h
    | dir cs =>
      simp only [lookupPath] at h
      cases hl : cs.lookup n with
      | none => rw [hl] at h; simp at h
      | some child =>
        rw [hl] at h
        cases p2 with
        | nil => simp [graftAt, hl, assocSet_assocSet]
        | cons m p3 =>
          simp only [graftAt, hl]
          rw [lookup_assocSet_self]
          simp only [assocSet_assocSet]
          rw [ih child h]

theorem graftAt_lookup_id (p : List String) (b sub : FileTree)
    (h : lookupPath p b = some sub) : graftAt p sub b = b := by
  induction p generalizing b with
  | nil =>
    simp only [lookupPath, Option.some.injEq] at h
    rw [← h]
    rfl
  | cons n p2 ih =>
    cases b with
    | file c => simp [lookupPath] at h
    | dir cs =>
      simp only [lookupPath] at h
      cases hl : cs.lookup n with
      | none => rw [hl] at h; simp at h
      | some child =>
        rw [hl] at h
        cases p2 with
        | nil =>
          simp only [lookupPath, Option.some.injEq] at h
          subst h
          simp [graftAt, assocSet_lookup_eq cs n child hl]
        | cons m p3 =>
          simp only [graftAt, hl]
          rw [ih child h]
          rw [assocSet_lookup_eq cs n child hl]

theorem lookupPath_graftAt_of_lookup (p : List String) (b sub s2 : FileTree)
    (h : lookupPath p b = some sub) :
    lookupPath p (graftAt p s2 b) = some s2 :=
  lookupPath_graftAt_self p s2 b (dirsAlong_of_lookupPath p b sub h)

theorem dirsAlong_mkdirAt (p : List String) (b : FileTree)
    (h : dirsAlong p b = true) : dirsAlong p (mkdirAt p b) = true := by
  induction p generalizing b with
  | nil => rfl
  | cons n p2 ih =>
    cases b with
    | file c => simp [dirsAlong] at h
    | dir cs =>
      simp only [dirsAlong] at h
      cases hl : cs.lookup n with
      | some child =>
        rw [hl] at h
        simp only at h
        simp only [mkdirAt, hl, dirsAlong]
        rw [lookup_assocSet_self]
        exact ih child h
      | none =>
        simp only [mkdirAt, hl, dirsAlong]
        rw [lookup_append, hl]
        have hbeq : (n == n) = true := by simp
        simp only [List.lookup, hbeq]
        exact ih (.dir []) (dirsAlong_emptyDir _)

mutual

theorem rebuild_tarEntries (t : FileTree) (p : List String) (base : FileTree)
    (cs0 : List (String × FileTree)) (nm : String)
    (hwf : wfTree t = true)
    (hlook : lookupPath p base = some (.dir cs0))
    (hfresh : cs0.lookup nm = none) :
    rebuild (tarEntries (p ++ [nm]) t) base
      = graftAt p (.dir (cs0 ++ [(nm, t)])) base := by
  cases t with
  | file c =>
    simp only [tarEntries, rebuild, List.foldl]
    simp only [insertEntry]
    rw [writeFileAt_factor p [nm] c base (.dir cs0) (by simp) hlook]
    show graftAt p (.dir (assocSet cs0 nm (.file c))) base = _
    rw [assocSet_of_lookup_none cs0 nm _ hfresh]
  | dir cc =>
    simp only [wfTree, Bool.and_eq_true] at hwf
    obtain ⟨hnf, hwfc⟩ := hwf
    simp only [tarEntries]
    rw [show rebuild ((p ++ [nm], none) :: tarChildren (p ++ [nm]) cc) base
        = rebuild (tarChildren (p ++ [nm]) cc) (insertEntry base (p ++ [nm], none)) from rfl]
    have hmk : insertEntry base (p ++ [nm], none)
        = graftAt p (.dir (cs0 ++ [(nm, .dir [])])) base := by
      simp only [insertEntry]
      rw [mkdirAt_factor p [nm] base (.dir cs0) hlook]
      simp only [mkdirAt, hfresh]
    rw [hmk]
    have hlookg : lookupPath p (graftAt p (.dir (cs0 ++ [(nm, FileTree.dir [])])) base)
        = some (.dir (cs0 ++ [(nm, FileTree.dir [])])) :=
      lookupPath_graftAt_of_lookup p base (.dir cs0) _ hlook
    have hlook1 : lookupPath (p ++ [nm])
        (graftAt p (.dir (cs0 ++ [(nm, FileTree.dir [])])) base) = some (.dir []) := by
      rw [lookupPath_append]
      rw [hlookg]
      simp only [lookupPath]
      rw [lookup_append, hfresh]
      have hbeq : (nm == nm) = true := by simp
      simp only [List.lookup, hbeq]
    have hrec := rebuild_tarChildren cc (p ++ [nm])
      (graftAt p (.dir (cs0 ++ [(nm, FileTree.dir [])])) base) [] hwfc hnf hlook1
      (by intro kv hkv; rfl)
    rw [List.nil_append] at hrec
    rw [hrec]
    rw [graftAt_factor p [nm] (.dir cc) _ (.dir (cs0 ++ [(nm, FileTree.dir [])]))
        (by simp) hlookg]
    show graftAt p (.dir (assocSet (cs0 ++ [(nm, FileTree.dir [])]) nm (FileTree.dir cc))) _ = _
    rw [assocSet_append_last cs0 nm _ _ hfresh]
    exact graftAt_graftAt p _ _ base (.dir cs0) hlook

theorem rebuild_tarChildren (cs : List (String × FileTree)) (p : List String)
    (base : FileTree) (cs0 : List (String × FileTree))
    (hwf : wfChildren cs = true)
    (hnf : namesFresh (cs.map Prod.fst) = true)
    (hlook : lookupPath p base = some (.dir cs0))
    (hfresh : ∀ kv ∈ cs, cs0.lookup kv.1 = none) :
    rebuild (tarChildren p cs) base = graftAt p (.dir (cs0 ++ cs)) base := by
  cases cs with
  | nil =>
    simp only [tarChildren, rebuild, List.foldl]
    rw [List.append_nil]
    exact (graftAt_lookup_id p base _ hlook).symm
  | cons kv rest =>
    obtain ⟨nm, t⟩ := kv
    simp only [wfChildren, Bool.and_eq_true] at hwf
    obtain ⟨hwt, hwr⟩ := hwf
    simp only [List.map, namesFresh, Bool.and_eq_true] at hnf
    obtain ⟨hnc, hnr⟩ := hnf
    have hnm : nm ∉ rest.map Prod.fst := by simpa using hnc
    simp only [tarChildren]
    rw [rebuild_append]
    rw [rebuild_tarEntries t p base cs0 nm hwt hlook (hfresh (nm, t) (by simp))]
    have hlook2 : lookupPath p (graftAt p (.dir (cs0 ++ [(nm, t)])) base)
        = some (.dir (cs0 ++ [(nm, t)])) :=
      lookupPath_graftAt_of_lookup p base (.dir cs0) _ hlook
    have hfresh2 : ∀ kv ∈ rest, (cs0 ++ [(nm, t)]).lookup kv.1 = none := by
      intro kv hkv
      rw [lookup_append]
      rw [hfresh kv (by simp [hkv])]
      have hne : kv.1 ≠ nm := by
        intro hx
        exact hnm (hx ▸ List.mem_map_of_mem Prod.fst hkv)
      have hbeq : (kv.1 == nm) = false := by simp [hne]
      simp [List.lookup, hbeq]
    rw [rebuild_tarChildren rest p _ (cs0 ++ [(nm, t)]) hwr hnr hlook2 hfresh2]
    rw [graftAt_graftAt p _ _ base (.dir cs0) hlook]
    rw [List.append_assoc]
    rfl

end

theorem rebuild_tar_root (s : String) (root : FileTree) (hwf : wfTree root = true) :
    rebuild (tarEntries [s] root) (.dir []) = .dir [(s, root)] := by
  have h := rebuild_tarEntries root [] (.dir []) [] s hwf rfl rfl
  rw [List.nil_append] at h
  rw [h]
  rfl

/-- A property directory as an on-disk tree: one file per key
(`add_local_property` writes `properties/<key>`). -/
def propsAsTree (props : List (String × String)) : FileTree :=
  .dir (props.map (fun kv => (kv.1, .file kv.2)))

/-- A snapshot's root directory as laid out by `Snapshot.create`
(dataset.py:513-520): the `data` copy and the `properties` copy. -/
def snapRootTree (d : FileTree) (props : List (String × String)) : FileTree :=
  .dir [("data", d), ("properties", propsAsTree props)]

/-- The plain files directly inside a directory, as key/value pairs — how
`get_local_properties` (dataset.py:183-194) reads a property directory. -/
def dirFileEntries : FileTree → List (String × String)
  | .file _ => []
  | .dir cs => cs.foldr (fun kv acc =>
      match kv.2 with
      | .file c => (kv.1, c) :: acc
      | .dir _ => acc) []

theorem dirFileEntries_propsAsTree (props : List (String × String)) :
    dirFileEntries (propsAsTree props) = props := by
  induction props with
  | nil => rfl
  | cons kv rest ih =>
    show (kv.1, kv.2) :: dirFileEntries (propsAsTree rest) = kv :: rest
    rw [ih]

theorem wfChildren_propsAsTree (props : List (String × String)) :
    wfChildren (props.map (fun kv => (kv.1, FileTree.file kv.2))) = true := by
  induction props with
  | nil => rfl
  | cons kv rest ih =>
    show (wfTree (.file kv.2) && wfChildren (rest.map (fun kv => (kv.1, FileTree.file kv.2)))) = true
    rw [ih]
    rfl

theorem wfTree_snapRootTree (d : FileTree) (props : List (String × String))
    (hwfd : wfTree d = true)
    (hpn : namesFresh (props.map Prod.fst) = true) :
    wfTree (snapRootTree d props) = true := by
  have hmap : (props.map (fun kv => (kv.1, FileTree.file kv.2))).map Prod.fst
      = props.map Prod.fst := by
    rw [List.map_map]
    rfl
  have hpt : wfTree (propsAsTree props) = true := by
    show (namesFresh ((props.map (fun kv => (kv.1, FileTree.file kv.2))).map Prod.fst)
        && wfChildren (props.map (fun kv => (kv.1, FileTree.file kv.2)))) = true
    rw [hmap, hpn, wfChildren_propsAsTree]
    rfl
  show (namesFresh ["data", "properties"]
      && (wfTree d && (wfTree (propsAsTree props) && true))) = true
  rw [hwfd, hpt]
  rfl

/-- `Dataset.get_parent` (dataset.py:178-181) + the parent-existence check
of `Filesystem.create` (dataset.py:394): a name with a slash has the prefix
before the last slash as parent filesystem; a bare name has the like-named
pool as parent. -/
def parentExistsZ (z : ZState) (n : String) : Bool :=
  if countChar '/' n = 0 then z.pools.contains n
  else z.fsRoots.contains (joinComponents (splitComponents n).dropLast)

/-- `zfs.send` (zfs.py:220-224) + `Snapshot.to_stream` (dataset.py:537-542):
resolve the snapshot (must exist, must be a snapshot) and emit the gzipped
tar of its root directory under its bare name as arcname. -/
def sendOp (z : ZState) (snapshotId : String) :
    Except ZErr (List (List String × Option String)) :=
  match getDatasetBy z snapshotId (some .snapshotK) (some true) with
  | .error e => .error e
  | .ok (.fs _) => .error .notASnapshot
  | .ok (.snap f s) =>
    match z.snapData f s, z.snapProps f s with
    | some d, some props => .ok (tarEntries [s] (snapRootTree d props))
    | _, _ => .error .streamDecodeFailure

/-- The state after a successful `Filesystem.create(from_stream=...)`: the
new root and its property dir exist, the extracted snapshots sit in the
`snapshots` directory, and `rollback_to` has copied the first snapshot's
`data` into the mountpoint and its `properties` over the property dir. -/
def receivedState (z : ZState) (n2 : String) (pd0 T st d : FileTree)
    (s : String) (restNames : List String) : ZState :=
  { pools := z.pools
    poolData := fun q =>
      if q = poolOf n2 then
        some (graftAt (poollessComponents n2) d (mkdirAt (poollessComponents n2) pd0))
      else z.poolData q
    fsRoots := z.fsRoots ++ [n2]
    fsProps := fun g =>
      if g = n2 then
        some (match lookupPath ["properties"] st with
              | some pt => dirFileEntries pt
              | none => [])
      else z.fsProps g
    snapRoots := z.snapRoots ++ (s :: restNames).map (fun c => (n2, c))
    snapData := fun g s2 =>
      if g = n2 then lookupPath [s2, "data"] T else z.snapData g s2
    snapProps := fun g s2 =>
      if g = n2 then (lookupPath [s2, "properties"] T).map dirFileEntries
      else z.snapProps g s2 }

/-- `zfs.receive` (zfs.py:171-178) + `Filesystem.create(from_stream)`
(dataset.py:393-434): resolve the target (must be a filesystem, must not
exist), require the parent, create the root structure, extract the archive
into the snapshots directory and roll back to its first entry.  Error
results model the raise-after-`self.destroy()` path. -/
def receiveOp (z : ZState) (fsId : String)
    (archive : List (List String × Option String)) : Except ZErr ZState :=
  match getDatasetBy z fsId (some .filesystemK) (some false) with
  | .error e => .error e
  | .ok (.snap _ _) => .error .notAFilesystem
  | .ok (.fs n2) =>
    if parentExistsZ z n2 = false then .error .parentMissing
    else
      match z.poolData (poolOf n2) with
      | none => .error .noSuchPool
      | some pd0 =>
        match rebuild archive (.dir []) with
        | .file _ => .error .streamDecodeFailure
        | .dir [] => .error .streamDecodeFailure
        | .dir ((s, st) :: restSnaps) =>
          match lookupPath ["data"] st with
          | none => .error .copytreeMissing
          | some d =>
            .ok (receivedState z n2 pd0 (.dir ((s, st) :: restSnaps)) st d s
              (restSnaps.map Prod.fst))

/-- **C5** (confirmed). Stream codec round-trip: receiving the stream
produced by sending snapshot `f@s` into a fresh filesystem reproduces
exactly the snapshot's data subtree (same relative paths, directory
structure and file contents), its local properties, and registers the
snapshot itself under the new filesystem. -/
theorem stream_roundtrip (z : ZState) (snapId fsId f s n2 : String)
    (d : FileTree) (props : List (String × String)) (pd0 : FileTree)
    (ar : List (List String × Option String)) (z2 : ZState)
    (hres : getDatasetBy z snapId (some .snapshotK) (some true) = .ok (.snap f s))
    (hd : z.snapData f s = some d)
    (hp : z.snapProps f s = some props)
    (hwfd : wfTree d = true)
    (hpn : namesFresh (props.map Prod.fst) = true)
    (hg2 : getDatasetBy z fsId (some .filesystemK) (some false) = .ok (.fs n2))
    (hpd0 : z.poolData (poolOf n2) = some pd0)
    (hdirs0 : dirsAlong (poollessComponents n2) pd0 = true)
    (hsend : sendOp z snapId = .ok ar)
    (hrecv : receiveOp z fsId ar = .ok z2) :
    (∃ pd2, z2.poolData (poolOf n2) = some pd2 ∧
      lookupPath (poollessComponents n2) pd2 = some d) ∧
    z2.fsProps n2 = some props ∧
    (n2, s) ∈ z2.snapRoots ∧
    z2.snapData n2 s = some d ∧
    z2.snapProps n2 s = some props := by
  have har : ar = tarEntries [s] (snapRootTree d props) := by
    simp only [sendOp, hres, hd, hp] at hsend
    simp only [Except.ok.injEq] at hsend
    exact hsend.symm
  subst har
  simp only [receiveOp, hg2] at hrecv
  have hpar : parentExistsZ z n2 = true := by
    by_contra hx
    have hx2 : parentExistsZ z n2 = false := by
      cases hy : parentExistsZ z n2 with
      | true => exact absurd hy hx
      | false => rfl
    rw [if_pos hx2] at hrecv
    simp at hrecv
  have hparne : ¬ (parentExistsZ z n2 = false) := by rw [hpar]; simp
  rw [if_neg hparne] at hrecv
  simp only [hpd0] at hrecv
  have hwfroot : wfTree (snapRootTree d props) = true := wfTree_snapRootTree d props hwfd hpn
  have hT : rebuild (tarEntries [s] (snapRootTree d props)) (.dir [])
      = .dir [(s, snapRootTree d props)] := rebuild_tar_root s _ hwfroot
  simp only [hT] at hrecv
  have hld : lookupPath ["data"] (snapRootTree d props) = some d := rfl
  simp only [hld] at hrecv
  simp only [Except.ok.injEq] at hrecv
  subst hrecv
  have hlp : lookupPath ["properties"] (snapRootTree d props) = some (propsAsTree props) := rfl
  have hsd : lookupPath [s, "data"] (FileTree.dir [(s, snapRootTree d props)]) = some d := by
    simp only [lookupPath, List.lookup, beq_self_eq_true]
  have hsp : lookupPath [s, "properties"] (FileTree.dir [(s, snapRootTree d props)])
      = some (propsAsTree props) := by
    simp only [lookupPath, List.lookup, beq_self_eq_true]
    rfl
  refine ⟨⟨graftAt (poollessComponents n2) d (mkdirAt (poollessComponents n2) pd0), ?_, ?_⟩,
    ?_, ?_, ?_, ?_⟩
  · simp [receivedState]
  · exact lookupPath_graftAt_self _ _ _ (dirsAlong_mkdirAt _ _ hdirs0)
  · simp [receivedState, hlp, dirFileEntries_propsAsTree]
  · simp [receivedState]
  · simp [receivedState, hsd]
  · simp [receivedState, hsp, dirFileEntries_propsAsTree]

/-- Data payload of the C5 witness snapshot. -/
def c5D : FileTree := .dir [("x.txt", .file "hello"), ("sub", .dir [("y.txt", .file "bytes")])]

/-- Concrete state for the C5 witness: pool `p`, filesystems `p` and `p/f`,
snapshot `p/f@s1` with data `c5D` and one local property. -/
def c5Z : ZState :=
  { pools := ["p"]
    poolData := fun n => if n = "p" then some (.dir [("f", .dir [])]) else none
    fsRoots := ["p", "p/f"]
    fsProps := fun g => if g = "p/f" then some [("k", "v")] else none
    snapRoots := [("p/f", "s1")]
    snapData := fun f s => if f = "p/f" ∧ s = "s1" then some c5D else none
    snapProps := fun f s => if f = "p/f" ∧ s = "s1" then some [("k", "v")] else none }

/-- Witness for C5: `zzzfs send p/f@s1 | zzzfs receive p/c` reproduces the
snapshot's data and properties under `p/c`. -/
theorem stream_roundtrip_witness :
    ∃ ar z2, sendOp c5Z "p/f@s1" = .ok ar ∧ receiveOp c5Z "p/c" ar = .ok z2 ∧
      ((∃ pd2, z2.poolData (poolOf "p/c") = some pd2 ∧
         lookupPath (poollessComponents "p/c") pd2 = some c5D) ∧
       z2.fsProps "p/c" = some [("k", "v")] ∧
       ("p/c", "s1") ∈ z2.snapRoots ∧
       z2.snapData "p/c" "s1" = some c5D ∧
       z2.snapProps "p/c" "s1" = some [("k", "v")]) := by
  refine ⟨_, _, rfl, rfl, ?_⟩
  exact stream_roundtrip c5Z "p/f@s1" "p/c" "p/f" "s1" "p/c" c5D [("k", "v")] _ _ _
    rfl rfl rfl rfl rfl rfl rfl rfl rfl rfl

end Zzzfs
